import Mathlib

/-!
A verification development for the DCOP result-analysis scripts
(`scripts/analyze_results.py` and `scripts/verify_problems.py`).

The Python code is shallowly embedded:
* files are lists of already-read lines (strings without trailing newline);
* Python `int` is `Int`; Python `float` arithmetic on exact inputs
  (sums of integers divided by counts) is modelled with `ℚ`;
* Python dictionaries are modelled by their lookup semantics
  (for duplicate keys, the last assignment wins);
* `md5` is used by the code only through equality of the hashes of the
  concatenated fields, so it is modelled by the concatenation itself;
* raising `ValueError` is modelled with `Except String`.
-/

/-! ### Small string utilities (kernel-evaluable replacements for the
Python `str.strip`, `str.split(',')`, `int(...)` and `str.startswith`) -/

/-- Strip leading and trailing whitespace from a list of characters
(Python `str.strip()`; Python strips a slightly larger Unicode whitespace
class, which never occurs in the file formats modelled here). -/
def trimChars (l : List Char) : List Char :=
  ((l.dropWhile Char.isWhitespace).reverse.dropWhile Char.isWhitespace).reverse

/-- Python `s.strip()`. -/
def pyTrim (s : String) : String :=
  ⟨trimChars s.data⟩

/-- Helper for `splitComma`: `cur` is the reversed current field. -/
def splitCommaAux : List Char → List Char → List String
  | [], cur => [⟨cur.reverse⟩]
  | c :: rest, cur =>
      if c = ',' then ⟨cur.reverse⟩ :: splitCommaAux rest [] else splitCommaAux rest (c :: cur)

/-- Python `s.split(',')` (note `"".split(',') == ['']`). -/
def splitComma (s : String) : List String :=
  splitCommaAux s.data []

/-- Accumulating decimal-digit reader; `none` as soon as a non-digit is hit. -/
def natOfDigitsAux : Nat → List Char → Option Nat
  | acc, [] => some acc
  | acc, c :: rest =>
      if c.isDigit then natOfDigitsAux (10 * acc + (c.toNat - 48)) rest else none

/-- All-digit string to `Nat`; `none` on the empty list. -/
def natOfDigits : List Char → Option Nat
  | [] => none
  | l => natOfDigitsAux 0 l

/-- Python `int(s)` on strings: optional surrounding whitespace, optional
sign, then decimal digits; anything else raises, modelled as `none`.
(Python additionally allows digit-group underscores, which the modelled
file formats never contain.) -/
def parsePyInt (s : String) : Option Int :=
  match trimChars s.data with
  | '-' :: rest => (natOfDigits rest).map (fun n => -(n : Int))
  | '+' :: rest => (natOfDigits rest).map (fun n => (n : Int))
  | t => (natOfDigits t).map (fun n => (n : Int))

/-- Python `s.startswith('#')`. -/
def startsHash (s : String) : Bool :=
  match s.data with
  | '#' :: _ => true
  | _ => false

/-! ### Boolean comparators mirroring Python's `sorted` orderings.
Python compares tuples lexicographically, strings lexicographically by
code point, and ints numerically.  (The library order on `String` is not
used because its `Decidable` instances do not reduce in the kernel.) -/

/-- Lexicographic `≤` on character lists by code point. -/
def charsLe : List Char → List Char → Bool
  | [], _ => true
  | _ :: _, [] => false
  | a :: as, b :: bs =>
      if a < b then true else if b < a then false else charsLe as bs

/-- Python `≤` on strings. -/
def strLe (a b : String) : Bool :=
  charsLe a.data b.data

/-- Python `≤` on ints. -/
def intLe (a b : Int) : Bool :=
  decide (a ≤ b)

/-- Lexicographic combination of comparators, as Python orders tuples:
compare the second components when the first ones are equal, otherwise
order by the first components. -/
def lexLe {α β : Type} [DecidableEq α] (leA : α → α → Bool) (leB : β → β → Bool)
    (x y : α × β) : Bool :=
  if x.1 = y.1 then leB x.2 y.2 else leA x.1 y.1

/-- A comparator that is total, transitive, and antisymmetric — what a
Python sort key provides. -/
structure LeOk {α : Type} (le : α → α → Bool) : Prop where
  total : ∀ a b, le a b = true ∨ le b a = true
  trans : ∀ a b c, le a b = true → le b c = true → le a c = true
  antisymm : ∀ a b, le a b = true → le b a = true → a = b

/-- Insert into a sorted list, before the first element that is not
smaller (this makes `isort` stable, like Python's `sorted`). -/
def ordIns {α : Type} (le : α → α → Bool) (a : α) : List α → List α
  | [] => [a]
  | b :: l => if le a b then a :: b :: l else b :: ordIns le a l

/-- Stable insertion sort (the model of Python's `sorted`). -/
def isort {α : Type} (le : α → α → Bool) : List α → List α
  | [] => []
  | a :: l => ordIns le a (isort le l)

/-! ### `min`/`max` over nonempty lists (Python `min(xs)` / `max(xs)`).
The `0` returned on `[]` is a junk value: every call site has already
ruled the empty list out, as the Python code would raise there. -/

/-- Python `min` over a list of ints. -/
def iMin : List Int → Int
  | [] => 0
  | a :: l => l.foldl min a

/-- Python `max` over a list of ints. -/
def iMax : List Int → Int
  | [] => 0
  | a :: l => l.foldl max a

/-- Python `min` over a list of rationals. -/
def qmin : List ℚ → ℚ
  | [] => 0
  | a :: l => l.foldl min a

/-! ### Consistency verifier (`scripts/verify_problems.py`)

`read_problems` builds a dict keyed by `(problem_id, seed)`; a file is
modelled as its list of data rows, and the dict is modelled by its
lookup function `lookupProblem` (for duplicate keys the later row wins,
as in a Python dict) together with the key list `rows.map rowKey`. -/

/-- One row of a problem-export file.  `problem_id` and `seed` are parsed
as ints (they form the key); the five structural fields stay opaque
strings, exactly as `read_problems` keeps them. -/
structure ProblemRow where
  problem_id : Int
  seed : Int
  num_agents : String
  domain_size : String
  num_edges : String
  edges : String
  cost_matrices : String
deriving DecidableEq

/-- The dict key `(problem_id, seed)`. -/
def rowKey (r : ProblemRow) : Int × Int :=
  (r.problem_id, r.seed)

/-- Dict lookup: the last row with the given key, if any
(`problems[key] = {...}` overwrites earlier rows with the same key). -/
def lookupProblem (rows : List ProblemRow) (k : Int × Int) : Option ProblemRow :=
  (rows.filter (fun r => decide (rowKey r = k))).getLast?

/-- `hash_problem`: the code md5-hashes the unseparated concatenation of
the five structural fields and only ever compares hashes for equality,
so the hash is modelled by the concatenation itself. -/
def hash_problem (r : ProblemRow) : String :=
  r.num_agents ++ r.domain_size ++ r.num_edges ++ r.edges ++ r.cost_matrices

/-- The field list walked by `find_differences`, in source order. -/
def problemFields : List (String × (ProblemRow → String)) :=
  [("num_agents", ProblemRow.num_agents),
   ("domain_size", ProblemRow.domain_size),
   ("num_edges", ProblemRow.num_edges),
   ("edges", ProblemRow.edges),
   ("cost_matrices", ProblemRow.cost_matrices)]

/-- `find_differences`: the names of the fields on which two records
disagree, in field order. -/
def find_differences (p1 p2 : ProblemRow) : List String :=
  (problemFields.filter (fun f => decide (f.2 p1 ≠ f.2 p2))).map Prod.fst

/-- The three divergence kinds of `compare_problems`. -/
inductive DiffType where
  | missing_in_file1
  | missing_in_file2
  | content_mismatch
deriving DecidableEq

/-- One divergence record (the dict appended to `differences`;
`details` is `[]` for the missing kinds, where the code omits the key). -/
structure Difference where
  problem_id : Int
  seed : Int
  dtype : DiffType
  file1 : String
  file2 : String
  details : List String
deriving DecidableEq

/-- The body of the `for key in sorted(all_keys)` loop: at most one
divergence per key. -/
def compareAt (n1 n2 : String) (rows1 rows2 : List ProblemRow) (k : Int × Int) :
    Option Difference :=
  match lookupProblem rows1 k, lookupProblem rows2 k with
  | none, _ => some ⟨k.1, k.2, DiffType.missing_in_file1, n1, n2, []⟩
  | some _, none => some ⟨k.1, k.2, DiffType.missing_in_file2, n1, n2, []⟩
  | some p1, some p2 =>
      if hash_problem p1 = hash_problem p2 then none
      else some ⟨k.1, k.2, DiffType.content_mismatch, n1, n2, find_differences p1 p2⟩

/-- Python tuple order on `(problem_id, seed)` keys. -/
def zzLe : Int × Int → Int × Int → Bool :=
  lexLe intLe intLe

/-- `sorted(set(problems1.keys()) | set(problems2.keys()))`.  (`List.dedup`
keeps a different duplicate of each key than a Python set comprehension
would, but the subsequent sort of the duplicate-free key list makes the
result independent of that choice.) -/
def allKeysOf (rows1 rows2 : List ProblemRow) : List (Int × Int) :=
  isort zzLe ((rows1.map rowKey ++ rows2.map rowKey).dedup)

/-- `compare_problems file1 file2` on two already-read files. -/
def compare_problems (n1 n2 : String) (rows1 rows2 : List ProblemRow) :
    List Difference :=
  (allKeysOf rows1 rows2).filterMap (compareAt n1 n2 rows1 rows2)

/-- A problem-export file: its path (used only in messages) and rows. -/
structure VFile where
  name : String
  rows : List ProblemRow
deriving DecidableEq

/-- The `for i, file1 ... for file2 in files[i+1:]` double loop of `main`,
collecting all pairwise divergences in pair order. -/
def allPairDifferences : List VFile → List Difference
  | [] => []
  | f :: rest =>
      (rest.map (fun g => compare_problems f.name g.name f.rows g.rows)).flatten
        ++ allPairDifferences rest

/-- The verifier's exit status: `1` for fewer than two files (usage
error), else `0` exactly when no pairwise divergence was found. -/
def verifierExit (files : List VFile) : Nat :=
  if files.length < 2 then 1
  else if allPairDifferences files = [] then 0 else 1

/-- The divergences of one kind, in discovery order (`by_type[t]`). -/
def diffsOfType (ds : List Difference) (t : DiffType) : List Difference :=
  ds.filter (fun d => decide (d.dtype = t))

/-- The failure report: for each divergence kind that occurred, the first
10 divergences of that kind printed in full and the total count (the
remainder is summarized as `... and count - 10 more`).  (`List.dedup`
keeps a different representative order than Python's insertion-ordered
dict of kinds; the claims do not depend on the kind order.) -/
def diffReport (ds : List Difference) : List (DiffType × List Difference × Nat) :=
  (ds.map Difference.dtype).dedup.map
    (fun t => (t, (diffsOfType ds t).take 10, (diffsOfType ds t).length))

/-! ### Result aggregation (`scripts/analyze_results.py`) -/

/-- One trial row `problem_id,seed,final_cost,rounds,runtime_ms`. -/
structure TrialRecord where
  problem_id : Int
  seed : Int
  final_cost : Int
  rounds : Int
  runtime_ms : Int
deriving DecidableEq

/-- A result file as `analyze_directory` sees it after globbing
`*_results.csv`: its base name and its lines (without newlines). -/
structure FileInput where
  filename : String
  lines : List String
deriving DecidableEq

/-- The config header: `lines[1].strip().split(',')` zipped with
`lines[2].strip().split(',')` when the file has at least 3 lines
(extra values beyond the header are dropped, like the `i < len` guard). -/
def configOf (lines : List String) : List (String × String) :=
  match lines with
  | _ :: l1 :: l2 :: _ => (splitComma (pyTrim l1)).zip (splitComma (pyTrim l2))
  | _ => []

/-- Python dict lookup `config.get(k)` on the header/value pairs: the
value of the last pair with the given key (later assignments win). -/
def cfgGet (cfg : List (String × String)) (k : String) : Option String :=
  ((cfg.filter (fun p => decide (p.1 = k))).getLast?).map Prod.snd

/-- One line of the results section: strip, skip blanks and `#` comments,
split on commas, require at least 5 fields that all parse as ints
(a `ValueError` on any of the five drops the whole row). -/
def rowOfLine (line : String) : Option TrialRecord :=
  let t := pyTrim line
  if t = "" then none
  else if startsHash t then none
  else
    let parts := splitComma t
    if 5 ≤ parts.length then
      match parsePyInt (parts.getD 0 ""), parsePyInt (parts.getD 1 ""),
            parsePyInt (parts.getD 2 ""), parsePyInt (parts.getD 3 ""),
            parsePyInt (parts.getD 4 "") with
      | some a, some b, some c, some d, some e => some ⟨a, b, c, d, e⟩
      | _, _, _, _, _ => none
    else none

/-- `parse_result_file`: the config map and the valid rows of
`lines[6:]`. -/
def parse_result_file (lines : List String) :
    List (String × String) × List TrialRecord :=
  (configOf lines, (lines.drop 6).filterMap rowOfLine)

/-- The four capture groups of
`re.search(r'_(PDSA|PMGM)_(RANDOM|SCALE_FREE)_t(\d+)_n(\d+)_', filename)`. -/
structure FMatch where
  algo : String
  topo : String
  tstr : String
  nstr : String
deriving DecidableEq

/-- Strip an exact literal from the front of the input, if present. -/
def dropLit : List Char → List Char → Option (List Char)
  | [], s => some s
  | _ :: _, [] => none
  | c :: p, x :: s => if x = c then dropLit p s else none

/-- The maximal leading digit run and the rest (`\d+` is greedy; since
the pattern continues with `_`, which is not a digit, the regex never
backtracks into the run, so greedy matching is exact). -/
def takeDigits : List Char → List Char × List Char
  | [] => ([], [])
  | c :: rest =>
      if c.isDigit then
        let p := takeDigits rest
        (c :: p.1, p.2)
      else ([], c :: rest)

/-- Match `_t(\d+)_n(\d+)_` after an algorithm/topology prefix. -/
def matchAfterTopo (algo topo : String) (s : List Char) : Option FMatch :=
  match dropLit ['_', 't'] s with
  | none => none
  | some s1 =>
      let p1 := takeDigits s1
      if p1.1 = [] then none
      else
        match dropLit ['_', 'n'] p1.2 with
        | none => none
        | some s2 =>
            let p2 := takeDigits s2
            if p2.1 = [] then none
            else
              match p2.2 with
              | '_' :: _ => some ⟨algo, topo, ⟨p1.1⟩, ⟨p2.1⟩⟩
              | _ => none

/-- Match `_(RANDOM|SCALE_FREE)_t(\d+)_n(\d+)_` (the two alternatives
start with different letters, so the alternation is deterministic). -/
def matchTopo (algo : String) (s : List Char) : Option FMatch :=
  match dropLit "_RANDOM".data s with
  | some r => matchAfterTopo algo "RANDOM" r
  | none =>
      match dropLit "_SCALE_FREE".data s with
      | some r => matchAfterTopo algo "SCALE_FREE" r
      | none => none

/-- Try to match the whole pattern at the current position. -/
def matchAt (s : List Char) : Option FMatch :=
  match s with
  | '_' :: rest =>
      match dropLit "PDSA".data rest with
      | some r => matchTopo "PDSA" r
      | none =>
          match dropLit "PMGM".data rest with
          | some r => matchTopo "PMGM" r
          | none => none
  | _ => none

/-- `re.search`: the leftmost position where the pattern matches. -/
def searchAux : List Char → Option FMatch
  | [] => none
  | c :: rest =>
      match matchAt (c :: rest) with
      | some m => some m
      | none => searchAux rest

/-- The filename fallback (`re.search` of the pattern over the name). -/
def searchFilename (s : String) : Option FMatch :=
  searchAux s.data

/-- The per-file dict appended to `data` by `analyze_directory`.
Averages and the percentage are Python floats over exact integer inputs,
modelled in `ℚ`. -/
structure DataEntry where
  algorithm : String
  network : String
  timeout : Int
  agents : Int
  num_problems : Nat
  avg_cost : ℚ
  min_cost : Int
  max_cost : Int
  avg_rounds : ℚ
  min_rounds : Int
  max_rounds : Int
  zero_round_count : Nat
  zero_round_pct : ℚ
deriving DecidableEq

/-- `config.get('algorithm', match.group(1) if match else 'UNKNOWN')`.
Note that `config.get(key, fallback)` uses the in-file value whenever
the key is present — even when its value is the empty string — and falls
back to the filename match (or `'UNKNOWN'`/`0`) only when the key is
absent. -/
def algoOf (cfg : List (String × String)) (m : Option FMatch) : String :=
  match cfgGet cfg "algorithm" with
  | some v => v
  | none => match m with | some i => i.algo | none => "UNKNOWN"

/-- `config.get('network_type', match.group(2) if match else 'UNKNOWN')`. -/
def networkOf (cfg : List (String × String)) (m : Option FMatch) : String :=
  match cfgGet cfg "network_type" with
  | some v => v
  | none => match m with | some i => i.topo | none => "UNKNOWN"

/-- `int(config.get('timeout_sec', match.group(3) if match else 0))`:
the `int` call raises (`none`) when the chosen string does not parse. -/
def timeoutOf (cfg : List (String × String)) (m : Option FMatch) : Option Int :=
  match cfgGet cfg "timeout_sec" with
  | some v => parsePyInt v
  | none => match m with | some i => parsePyInt i.tstr | none => some 0

/-- `int(config.get('num_agents', match.group(4) if match else 0))`. -/
def agentsOf (cfg : List (String × String)) (m : Option FMatch) : Option Int :=
  match cfgGet cfg "num_agents" with
  | some v => parsePyInt v
  | none => match m with | some i => parsePyInt i.nstr | none => some 0

/-- The statistics block of `analyze_directory` for one file's rows. -/
def mkEntry (algo network : String) (timeout agents : Int)
    (results : List TrialRecord) : DataEntry :=
  let costs := results.map TrialRecord.final_cost
  let rounds := results.map TrialRecord.rounds
  let zcount := (rounds.filter (fun r => decide (r = 0))).length
  { algorithm := algo
    network := network
    timeout := timeout
    agents := agents
    num_problems := results.length
    avg_cost := (costs.sum : ℚ) / (results.length : ℚ)
    min_cost := iMin costs
    max_cost := iMax costs
    avg_rounds := (rounds.sum : ℚ) / (results.length : ℚ)
    min_rounds := iMin rounds
    max_rounds := iMax rounds
    zero_round_count := zcount
    zero_round_pct := ((100 * zcount : ℕ) : ℚ) / (results.length : ℚ) }

/-- See the section comment: `continue` on a file with no valid rows,
`ValueError` on a present but unparsable numeric config value, and
otherwise one aggregated entry. -/
def resolveFile (f : FileInput) : Except String (Option DataEntry) :=
  if (parse_result_file f.lines).2 = [] then Except.ok none
  else
    match timeoutOf (parse_result_file f.lines).1 (searchFilename f.filename),
          agentsOf (parse_result_file f.lines).1 (searchFilename f.filename) with
    | some timeout, some agents =>
        Except.ok (some (mkEntry
          (algoOf (parse_result_file f.lines).1 (searchFilename f.filename))
          (networkOf (parse_result_file f.lines).1 (searchFilename f.filename))
          timeout agents (parse_result_file f.lines).2))
    | _, _ => Except.error "ValueError: invalid literal for int()"

/-- `resolveFile` with the raise collapsed to `none` (used to relate the
output of `analyze_directory` to the individual files). -/
def entryOf (f : FileInput) : Option DataEntry :=
  match resolveFile f with
  | Except.ok o => o
  | Except.error _ => none

/-- `analyze_directory` over the globbed file list, in discovery order;
a `ValueError` in any file aborts the whole run. -/
def analyze_directory : List FileInput → Except String (List DataEntry)
  | [] => Except.ok []
  | f :: rest =>
      match resolveFile f with
      | Except.error e => Except.error e
      | Except.ok o =>
          match analyze_directory rest with
          | Except.error e => Except.error e
          | Except.ok ds =>
              Except.ok (match o with | some d => d :: ds | none => ds)

/-! ### Ranking and report rendering (`print_zero_round_analysis`,
`print_comparison_table`, `print_summary_by_agents`).  The rendered
report is modelled at the level of the values that reach the format
strings; the `f"..."` formatting itself is a fixed function of those
values. -/

/-- The comparison-table grouping key `(network, timeout, agents)`. -/
def groupKey (d : DataEntry) : String × Int × Int :=
  (d.network, d.timeout, d.agents)

/-- The full configuration of an entry (grouping key plus algorithm). -/
def fullKey (d : DataEntry) : String × String × Int × Int :=
  (d.algorithm, d.network, d.timeout, d.agents)

/-- `grouped[key][algo]`: iterating `data` in order and overwriting, so
the last entry with the given group key and algorithm wins. -/
def lookupAlgo (data : List DataEntry) (k : String × Int × Int) (a : String) :
    Option DataEntry :=
  (data.filter (fun d => decide (groupKey d = k ∧ d.algorithm = a))).getLast?

/-- `has_pmaxsum`: whether any entry anywhere has algorithm `PMAXSUM`. -/
def hasPmaxsum (data : List DataEntry) : Bool :=
  data.any (fun d => decide (d.algorithm = "PMAXSUM"))

/-- `valid_costs`: the code fills `costs` for the fixed candidates PDSA,
PMGM (and PMAXSUM only when `has_pmaxsum`), using NaN for an absent
algorithm, then filters the NaNs out; averages of integer samples are
never NaN, so the valid entries are exactly the present candidates. -/
def validCosts (data : List DataEntry) (k : String × Int × Int) :
    List (String × ℚ) :=
  (match lookupAlgo data k "PDSA" with
   | some d => [("PDSA", d.avg_cost)]
   | none => []) ++
  (match lookupAlgo data k "PMGM" with
   | some d => [("PMGM", d.avg_cost)]
   | none => []) ++
  (if hasPmaxsum data then
     match lookupAlgo data k "PMAXSUM" with
     | some d => [("PMAXSUM", d.avg_cost)]
     | none => []
   else [])

/-- `min(valid_costs.values())` (junk `0` when the list is empty; the
code only takes the minimum after checking nonemptiness). -/
def minCostOf (data : List DataEntry) (k : String × Int × Int) : ℚ :=
  qmin ((validCosts data k).map Prod.snd)

/-- `[k for k, v in valid_costs.items() if v == min_cost]`, with values. -/
def minAttainers (data : List DataEntry) (k : String × Int × Int) :
    List (String × ℚ) :=
  (validCosts data k).filter (fun p => decide (p.2 = minCostOf data k))

/-- The winner cell: `"N/A"` with no valid costs, the unique minimizer
when there is exactly one, else `"TIE"`. -/
def winnerAt (data : List DataEntry) (k : String × Int × Int) : String :=
  if validCosts data k = [] then "N/A"
  else
    match (minAttainers data k).map Prod.fst with
    | [w] => w
    | _ => "TIE"

/-- The algorithms that actually have aggregate data for a group (used
to state the claims; the code itself never computes this set). -/
def algosWithData (data : List DataEntry) (k : String × Int × Int) : List String :=
  ((data.filter (fun d => decide (groupKey d = k))).map DataEntry.algorithm).dedup

/-- Python tuple order on the grouping key `(network, timeout, agents)`. -/
def k3Le : String × Int × Int → String × Int × Int → Bool :=
  lexLe strLe (lexLe intLe intLe)

/-- `sorted(grouped.keys())`.  (`List.dedup` keeps a different duplicate
of each key than Python's insertion-ordered dict; sorting the
duplicate-free list erases the difference.) -/
def sortedGroupKeys (data : List DataEntry) : List (String × Int × Int) :=
  isort k3Le ((data.map groupKey).dedup)

/-- The values of one algorithm cell of a comparison-table row: average
cost, average rounds, and the `*` zero-round marker. -/
structure AlgoCell where
  cost : ℚ
  rounds : ℚ
  marker : Bool
deriving DecidableEq

/-- The cell rendered for a present algorithm (an absent algorithm
renders as NaN/`N/A`, modelled as `none` at the row level). -/
def cellOf (d : DataEntry) : AlgoCell :=
  ⟨d.avg_cost, d.avg_rounds, decide (0 < d.zero_round_count)⟩

/-- One printed row of the comparison table. -/
structure CompRow where
  network : String
  timeout : Int
  agents : Int
  pdsa : Option AlgoCell
  pmgm : Option AlgoCell
  pmaxsum : Option AlgoCell
  winner : String
deriving DecidableEq

/-- The comparison-table row for one group key. -/
def rowAt (data : List DataEntry) (k : String × Int × Int) : CompRow :=
  { network := k.1
    timeout := k.2.1
    agents := k.2.2
    pdsa := (lookupAlgo data k "PDSA").map cellOf
    pmgm := (lookupAlgo data k "PMGM").map cellOf
    pmaxsum := (lookupAlgo data k "PMAXSUM").map cellOf
    winner := winnerAt data k }

/-- All comparison-table rows, over the sorted group keys. -/
def compRows (data : List DataEntry) : List CompRow :=
  (sortedGroupKeys data).map (rowAt data)

/-- The grouping key a comparison-table row displays. -/
def compRowKey (r : CompRow) : String × Int × Int :=
  (r.network, r.timeout, r.agents)

/-- `sorted(wins.items())`: win tallies per winner label (algorithm
names and `TIE`; `N/A` rows add no tally), in label order. -/
def winsSummary (data : List DataEntry) : List (String × Nat) :=
  let ws := ((sortedGroupKeys data).map (winnerAt data)).filter
    (fun w => decide (w ≠ "N/A"))
  (isort strLe ws.dedup).map (fun a => (a, ws.count a))

/-- The sort key of `print_zero_round_analysis`:
`(algorithm, network, agents, timeout)`. -/
def zKey (d : DataEntry) : String × String × Int × Int :=
  (d.algorithm, d.network, d.agents, d.timeout)

/-- Python tuple order on that sort key. -/
def z4Le : String × String × Int × Int → String × String × Int × Int → Bool :=
  lexLe strLe (lexLe strLe (lexLe intLe intLe))

/-- The values one zero-round table row displays. -/
structure ZeroRow where
  algorithm : String
  network : String
  timeout : Int
  agents : Int
  count : Nat
  pct : ℚ
deriving DecidableEq

/-- Projection of an entry to its zero-round table row. -/
def zeroRowOf (d : DataEntry) : ZeroRow :=
  ⟨d.algorithm, d.network, d.timeout, d.agents, d.zero_round_count, d.zero_round_pct⟩

/-- The zero-round table: entries with a positive zero-round count,
sorted by `(algorithm, network, agents, timeout)`. -/
def zeroRows (data : List DataEntry) : List ZeroRow :=
  (isort (fun a b => z4Le (zKey a) (zKey b))
    (data.filter (fun d => decide (0 < d.zero_round_count)))).map zeroRowOf

/-- One entry of the by-agent-count summary. -/
structure SummaryEntry where
  algorithm : String
  agents : Int
  avg_cost : ℚ
  avg_rounds : ℚ
  zero_round_pct : ℚ
deriving DecidableEq

/-- The summary entry for one `(algorithm, agents)` pair: means of the
per-file averages and the pooled zero-round percentage. -/
def mkSummary (data : List DataEntry) (p : String × Int) : SummaryEntry :=
  let items := data.filter (fun d => decide (d.algorithm = p.1 ∧ d.agents = p.2))
  let total_problems := (items.map DataEntry.num_problems).sum
  { algorithm := p.1
    agents := p.2
    avg_cost := ((items.map DataEntry.avg_cost).sum) / (items.length : ℚ)
    avg_rounds := ((items.map DataEntry.avg_rounds).sum) / (items.length : ℚ)
    zero_round_pct :=
      if 0 < total_problems then
        ((100 * (items.map DataEntry.zero_round_count).sum : ℕ) : ℚ) /
          (total_problems : ℚ)
      else 0 }

/-- The `summary` list: one entry per distinct `(algorithm, agents)`
pair, sorted by `(agents, algorithm)` (for equal sort keys the pairs are
equal, so the order-of-grouping difference with the Python dict does not
show). -/
def summaryEntries (data : List DataEntry) : List SummaryEntry :=
  isort (fun a b => lexLe intLe strLe (a.agents, a.algorithm) (b.agents, b.algorithm))
    (((data.map (fun d => (d.algorithm, d.agents))).dedup).map (mkSummary data))

/-- `sorted(set(d['agents'] for d in summary))`. -/
def agentsList (data : List DataEntry) : List Int :=
  isort intLe (((summaryEntries data).map SummaryEntry.agents).dedup)

/-- The three values of one algorithm's cell in the by-agent summary. -/
structure SummaryCell where
  cost : ℚ
  rounds : ℚ
  pct : ℚ
deriving DecidableEq

/-- `next((d for d in summary if ...), None)` and the three values that
reach the row's format string for one algorithm. -/
def summaryCellFor (s : List SummaryEntry) (algo : String) (a : Int) :
    Option SummaryCell :=
  ((s.find? (fun e => decide (e.algorithm = algo ∧ e.agents = a))).map
    (fun e => ⟨e.avg_cost, e.avg_rounds, e.zero_round_pct⟩))

/-- One row of the by-agent-count summary. -/
structure SummaryRow where
  agents : Int
  pdsa : Option SummaryCell
  pmgm : Option SummaryCell
  pmaxsum : Option SummaryCell
deriving DecidableEq

/-- The by-agent-count summary rows. -/
def summaryRows (data : List DataEntry) : List SummaryRow :=
  (agentsList data).map (fun a =>
    ⟨a, summaryCellFor (summaryEntries data) "PDSA" a,
        summaryCellFor (summaryEntries data) "PMGM" a,
        summaryCellFor (summaryEntries data) "PMAXSUM" a⟩)

/-- Everything `main` prints after `analyze_directory`, at the level of
the values reaching the format strings: the configuration count, the
zero-round table with its affected/total tally, the header variant flag
`has_pmaxsum`, the comparison-table rows, the winner tallies, and the
by-agent-count summary rows. -/
structure Report where
  numConfigs : Nat
  zeroTable : List ZeroRow
  zeroAffected : Nat
  hasPmax : Bool
  compTable : List CompRow
  wins : List (String × Nat)
  summaryTable : List SummaryRow
deriving DecidableEq

/-- The rendered report as a function of the aggregated data. -/
def renderReport (data : List DataEntry) : Report :=
  { numConfigs := data.length
    zeroTable := zeroRows data
    zeroAffected := (data.filter (fun d => decide (0 < d.zero_round_count))).length
    hasPmax := hasPmaxsum data
    compTable := compRows data
    wins := winsSummary data
    summaryTable := summaryRows data }

/-! ### The spec's configuration-resolution rule (for the refinement
check of the precedence claim) -/

/-- A resolved configuration, the spec's view. -/
structure ResolvedConfig where
  algorithm : String
  network : String
  timeout : Int
  agents : Int
deriving DecidableEq

/-- The spec's per-field precedence rule, amended to what the code does:
for each field use the in-file config value whenever the key is
*present* (even with an empty value); otherwise the value extracted from
a filename matching `_(PDSA|PMGM)_(RANDOM|SCALE_FREE)_t(\d+)_n(\d+)_`;
otherwise the sentinel `UNKNOWN` / `0`.  A chosen numeric string that
does not parse as an integer makes the whole configuration unresolvable
(`none`), modelling the uncaught `ValueError`. -/
def specResolveConfig (cfg : List (String × String)) (filename : String) :
    Option ResolvedConfig :=
  let m := searchFilename filename
  let algo :=
    match cfgGet cfg "algorithm", m with
    | some v, _ => v
    | none, some i => i.algo
    | none, none => "UNKNOWN"
  let network :=
    match cfgGet cfg "network_type", m with
    | some v, _ => v
    | none, some i => i.topo
    | none, none => "UNKNOWN"
  let timeoutO :=
    match cfgGet cfg "timeout_sec", m with
    | some v, _ => parsePyInt v
    | none, some i => parsePyInt i.tstr
    | none, none => some 0
  let agentsO :=
    match cfgGet cfg "num_agents", m with
    | some v, _ => parsePyInt v
    | none, some i => parsePyInt i.nstr
    | none, none => some 0
  match timeoutO, agentsO with
  | some t, some a => some ⟨algo, network, t, a⟩
  | _, _ => none

/-! ### The summary delimited file -/

/-- Modelled from the spec: the summary-file writer is not among the
files under `src/` (the spec attributes the remaining lines of the
repository to near-duplicate variants of this pipeline), so its input is
modelled from §6 as algorithm-tagged trial records and its output from
the sentence "columns `Algorithm, LastRound, AvgCost, MinCost, MaxCost,
AvgRuntimeMs, NumSamples`, one row per (algorithm, round) pair, values
formatted to 2 decimal places for floating fields."  A cell formatted to
two decimal places is modelled by its value in hundredths. -/
structure SummaryFileRow where
  algorithm : String
  lastRound : Int
  avgCostC : Int
  minCost : Int
  maxCost : Int
  avgRuntimeC : Int
  numSamples : Nat
deriving DecidableEq

/-- Modelled from the spec: rendering a float with `%.2f`, as the value
in hundredths (rounding half up; the spec fixes no tie rule). -/
def format2 (q : ℚ) : Int :=
  ⌊q * 100 + 1 / 2⌋

/-- Modelled from the spec: the summary-file row for one
`(algorithm, round)` pair, carrying that group's statistics. -/
def summaryRowFor (input : List (String × TrialRecord)) (pr : String × Int) :
    SummaryFileRow :=
  let items := input.filter (fun p => decide (p.1 = pr.1 ∧ p.2.rounds = pr.2))
  let costs : List Int := items.map (fun p => p.2.final_cost)
  { algorithm := pr.1
    lastRound := pr.2
    avgCostC := format2 ((costs.sum : ℚ) / (items.length : ℚ))
    minCost := iMin costs
    maxCost := iMax costs
    avgRuntimeC :=
      format2 (((items.map (fun p => p.2.runtime_ms)).sum : ℚ) / (items.length : ℚ))
    numSamples := items.length }

/-- Modelled from the spec: the summary delimited file — the header line
and one row per distinct `(algorithm, round)` pair with that group's
statistics. -/
def summaryFile (input : List (String × TrialRecord)) :
    List String × List SummaryFileRow :=
  (["Algorithm", "LastRound", "AvgCost", "MinCost", "MaxCost", "AvgRuntimeMs",
    "NumSamples"],
   ((input.map (fun p => (p.1, p.2.rounds))).dedup).map (summaryRowFor input))

/-- The `(algorithm, round)` pair a summary row is keyed by. -/
def summaryRowKey (r : SummaryFileRow) : String × Int :=
  (r.algorithm, r.lastRound)

/-! ### A statement helper for the one-field-change claim -/

/-- `p1` and `p2` differ in exactly the named field and agree on the
other four. -/
def oneFieldDiff (p1 p2 : ProblemRow) (fld : String) : Prop :=
  (fld = "num_agents" ∧ p1.num_agents ≠ p2.num_agents ∧
    p1.domain_size = p2.domain_size ∧ p1.num_edges = p2.num_edges ∧
    p1.edges = p2.edges ∧ p1.cost_matrices = p2.cost_matrices) ∨
  (fld = "domain_size" ∧ p1.num_agents = p2.num_agents ∧
    p1.domain_size ≠ p2.domain_size ∧ p1.num_edges = p2.num_edges ∧
    p1.edges = p2.edges ∧ p1.cost_matrices = p2.cost_matrices) ∨
  (fld = "num_edges" ∧ p1.num_agents = p2.num_agents ∧
    p1.domain_size = p2.domain_size ∧ p1.num_edges ≠ p2.num_edges ∧
    p1.edges = p2.edges ∧ p1.cost_matrices = p2.cost_matrices) ∨
  (fld = "edges" ∧ p1.num_agents = p2.num_agents ∧
    p1.domain_size = p2.domain_size ∧ p1.num_edges = p2.num_edges ∧
    p1.edges ≠ p2.edges ∧ p1.cost_matrices = p2.cost_matrices) ∨
  (fld = "cost_matrices" ∧ p1.num_agents = p2.num_agents ∧
    p1.domain_size = p2.domain_size ∧ p1.num_edges = p2.num_edges ∧
    p1.edges = p2.edges ∧ p1.cost_matrices ≠ p2.cost_matrices)

/-! ### Concrete inputs used by the counterexamples and witnesses -/

/-- A problem record with key `(1, 1)`. -/
def vC4r1 : ProblemRow := ⟨1, 1, "1", "2", "3", "e", "c"⟩

/-- `vC4r1` with only `num_agents` changed. -/
def vC4r1x : ProblemRow := ⟨1, 1, "9", "2", "3", "e", "c"⟩

/-- A second record with the same key `(1, 1)`. -/
def vC4r2 : ProblemRow := ⟨1, 1, "7", "7", "7", "f", "d"⟩

/-- Two different records sharing the key `(1, 1)`. -/
def vC6a : ProblemRow := ⟨1, 1, "1", "1", "1", "ea", "ca"⟩

/-- See `vC6a`. -/
def vC6b : ProblemRow := ⟨1, 1, "2", "2", "2", "eb", "cb"⟩

/-- Fields `1|23|4|e|c`: concatenates to `1234ec`. -/
def vC10a : ProblemRow := ⟨1, 1, "1", "23", "4", "e", "c"⟩

/-- Fields `12|3|4|e|c`: same concatenation `1234ec`, different fields. -/
def vC10b : ProblemRow := ⟨1, 1, "12", "3", "4", "e", "c"⟩

/-- A record with key `(1, 1)` (distinct-key witness file). -/
def wC4a : ProblemRow := ⟨1, 1, "1", "2", "3", "e", "c"⟩

/-- `wC4a` with only `edges` changed. -/
def wC4ax : ProblemRow := ⟨1, 1, "1", "2", "3", "g", "c"⟩

/-- A record with key `(2, 5)`. -/
def wC4b : ProblemRow := ⟨2, 5, "7", "7", "7", "f", "d"⟩

/-- A verifier input file. -/
def vF5a : VFile := ⟨"a.csv", [wC4a, wC4b]⟩

/-- A second verifier input file with the same rows. -/
def vF5b : VFile := ⟨"b.csv", [wC4a, wC4b]⟩

/-- A result file whose config names the algorithm `MAXSUM`, which the
winner computation never considers. -/
def aC1file : FileInput :=
  ⟨"m_results.csv",
   ["#", "algorithm,network_type,timeout_sec,num_agents", "MAXSUM,RANDOM,60,10",
    "", "", "", "1,1,5,1,9"]⟩

/-- A result file with one valid row whose configuration is fully
unresolved: the in-file config has unrelated keys and the filename does
not match the pattern. -/
def aC2file : FileInput :=
  ⟨"foo_results.csv", ["x", "a,b", "1,2", "", "", "", "1,2,3,4,5"]⟩

/-- A result file whose config contains `algorithm` with an *empty*
value while the filename encodes `PDSA`. -/
def aC3file : FileInput :=
  ⟨"x_PDSA_RANDOM_t60_n10_results.csv",
   ["x", "algorithm", "", "", "", "", "5,6,7,8,9"]⟩

/-- A result file whose single row has `rounds == 0`. -/
def aC7file : FileInput :=
  ⟨"w_results.csv",
   ["x", "algorithm,network_type,timeout_sec,num_agents", "PDSA,RANDOM,60,10",
    "", "", "", "1,1,5,0,9"]⟩

/-- Result file A: config `(PDSA, RANDOM, 60, 10)`, one zero-round trial. -/
def aC8fa : FileInput :=
  ⟨"a_results.csv",
   ["x", "algorithm,network_type,timeout_sec,num_agents", "PDSA,RANDOM,60,10",
    "", "", "", "1,1,100,0,9"]⟩

/-- Result file B: the *same* configuration, a non-zero-round trial. -/
def aC8fb : FileInput :=
  ⟨"b_results.csv",
   ["x", "algorithm,network_type,timeout_sec,num_agents", "PDSA,RANDOM,60,10",
    "", "", "", "1,1,200,5,9"]⟩

/-- Result file with configuration `(PDSA, RANDOM, 60, 10)`. -/
def aC8wa : FileInput :=
  ⟨"a_results.csv",
   ["x", "algorithm,network_type,timeout_sec,num_agents", "PDSA,RANDOM,60,10",
    "", "", "", "1,1,100,5,9"]⟩

/-- Result file with the distinct configuration `(PMGM, RANDOM, 60, 10)`. -/
def aC8wb : FileInput :=
  ⟨"b_results.csv",
   ["x", "algorithm,network_type,timeout_sec,num_agents", "PMGM,RANDOM,60,10",
    "", "", "", "1,1,120,4,9"]⟩

/-- A hand-built PDSA aggregate entry with average cost 5. -/
def wC1p : DataEntry :=
  ⟨"PDSA", "RANDOM", 60, 10, 1, 5, 5, 5, 1, 1, 1, 0, 0⟩

/-- A hand-built PMGM aggregate entry with average cost 7. -/
def wC1m : DataEntry :=
  ⟨"PMGM", "RANDOM", 60, 10, 1, 7, 7, 7, 1, 1, 1, 0, 0⟩

/-- One algorithm-tagged trial for the summary-file witness. -/
def wC9input : List (String × TrialRecord) := [("PDSA", ⟨1, 1, 5, 3, 9⟩)]

/-! ## Lemmas -/

/-! ### The insertion-sort model of `sorted` -/

theorem perm_ordIns {α : Type} (le : α → α → Bool) (a : α) :
    ∀ l : List α, (ordIns le a l).Perm (a :: l) := by
  intro l
  induction l with
  | nil => simp [ordIns]
  | cons b t ih =>
      simp only [ordIns]
      split
      · exact List.Perm.refl _
      · exact (ih.cons b).trans (List.Perm.swap a b t)

theorem perm_isort {α : Type} (le : α → α → Bool) :
    ∀ l : List α, (isort le l).Perm l := by
  intro l
  induction l with
  | nil => simp [isort]
  | cons a t ih => exact (perm_ordIns le a (isort le t)).trans (ih.cons a)

theorem pairwise_ordIns {α : Type} (le : α → α → Bool)
    (htot : ∀ x y, le x y = true ∨ le y x = true)
    (htrans : ∀ x y z, le x y = true → le y z = true → le x z = true) (a : α) :
    ∀ l : List α, l.Pairwise (fun x y => le x y = true) →
      (ordIns le a l).Pairwise (fun x y => le x y = true) := by
  intro l
  induction l with
  | nil => intro _; simp [ordIns]
  | cons b t ih =>
      intro hp
      rw [List.pairwise_cons] at hp
      obtain ⟨hb, ht⟩ := hp
      simp only [ordIns]
      split
      case isTrue h =>
        rw [List.pairwise_cons]
        refine ⟨?_, ?_⟩
        · intro x hx
          rcases List.mem_cons.mp hx with rfl | hx2
          · exact h
          · exact htrans a b x h (hb x hx2)
        · rw [List.pairwise_cons]; exact ⟨hb, ht⟩
      case isFalse h =>
        have hba : le b a = true := by
          rcases htot a b with h2 | h2
          · exact absurd h2 h
          · exact h2
        rw [List.pairwise_cons]
        refine ⟨?_, ?_⟩
        · intro x hx
          have hx2 : x ∈ a :: t := (perm_ordIns le a t).mem_iff.mp hx
          rcases List.mem_cons.mp hx2 with rfl | hx3
          · exact hba
          · exact hb x hx3
        · exact ih ht

theorem pairwise_isort {α : Type} (le : α → α → Bool)
    (htot : ∀ x y, le x y = true ∨ le y x = true)
    (htrans : ∀ x y z, le x y = true → le y z = true → le x z = true) :
    ∀ l : List α, (isort le l).Pairwise (fun x y => le x y = true) := by
  intro l
  induction l with
  | nil => simp [isort]
  | cons a t ih => exact pairwise_ordIns le htot htrans a (isort le t) ih

theorem sorted_key_perm_eq {α K : Type} (f : α → K) (r : α → α → Prop)
    (hanti : ∀ a b, r a b → r b a → f a = f b) :
    ∀ l1 l2 : List α, l1.Perm l2 → l1.Pairwise r → l2.Pairwise r →
      (l1.map f).Nodup → l1 = l2 := by
  intro l1
  induction l1 with
  | nil =>
      intro l2 hp _ _ _
      cases l2 with
      | nil => rfl
      | cons b t2 => exact absurd hp.length_eq (by simp)
  | cons a t1 ih =>
      intro l2 hp hs1 hs2 hnd
      cases l2 with
      | nil => exact absurd hp.length_eq (by simp)
      | cons b t2 =>
          have hab : a = b := by
            have hma : a ∈ b :: t2 := hp.mem_iff.mp (List.mem_cons_self a t1)
            rcases List.mem_cons.mp hma with h | hat2
            · exact h
            · have hmb : b ∈ a :: t1 := hp.symm.mem_iff.mp (List.mem_cons_self b t2)
              rcases List.mem_cons.mp hmb with h | hbt1
              · exact h.symm
              · exfalso
                have h1 : r a b := (List.pairwise_cons.mp hs1).1 b hbt1
                have h2 : r b a := (List.pairwise_cons.mp hs2).1 a hat2
                have hfa : f a = f b := hanti a b h1 h2
                have hnd2 : (∀ x ∈ t1, ¬f x = f a) ∧ (List.map f t1).Nodup := by
                  simpa using hnd
                exact hnd2.1 b hbt1 hfa.symm
          subst hab
          have ht : t1.Perm t2 := hp.cons_inv
          have htl : t1 = t2 := by
            refine ih t2 ht (List.pairwise_cons.mp hs1).2 (List.pairwise_cons.mp hs2).2 ?_
            have hnd2 : (∀ x ∈ t1, ¬f x = f a) ∧ (List.map f t1).Nodup := by
              simpa using hnd
            exact hnd2.2
          rw [htl]

theorem isort_eq_of_perm {α K : Type} (le : α → α → Bool) (f : α → K)
    (htot : ∀ x y, le x y = true ∨ le y x = true)
    (htrans : ∀ x y z, le x y = true → le y z = true → le x z = true)
    (hanti : ∀ a b, le a b = true → le b a = true → f a = f b)
    {l1 l2 : List α} (hp : l1.Perm l2) (hnd : (l1.map f).Nodup) :
    isort le l1 = isort le l2 := by
  refine sorted_key_perm_eq f (fun x y => le x y = true) hanti _ _ ?_ ?_ ?_ ?_
  · exact (perm_isort le l1).trans (hp.trans (perm_isort le l2).symm)
  · exact pairwise_isort le htot htrans l1
  · exact pairwise_isort le htot htrans l2
  · exact (((perm_isort le l1).map f).nodup_iff).mpr hnd

/-! ### The individual comparators are total, transitive, antisymmetric -/

theorem intLe_ok : LeOk intLe := by
  refine ⟨?_, ?_, ?_⟩ <;> intros <;> simp only [intLe, decide_eq_true_eq] at * <;> omega

theorem charsLe_total : ∀ a b : List Char, charsLe a b = true ∨ charsLe b a = true := by
  intro a
  induction a with
  | nil => intro b; left; cases b <;> simp [charsLe]
  | cons x xs ih =>
      intro b
      cases b with
      | nil => right; simp [charsLe]
      | cons y ys =>
          by_cases h1 : x < y
          · left; simp [charsLe, h1]
          · by_cases h2 : y < x
            · right; simp [charsLe, h2]
            · rcases ih ys with h | h
              · left; simp [charsLe, h1, h2, h]
              · right; simp [charsLe, h1, h2, h]

theorem charsLe_trans :
    ∀ a b c : List Char, charsLe a b = true → charsLe b c = true → charsLe a c = true := by
  intro a
  induction a with
  | nil => intro b c _ _; cases c <;> simp [charsLe]
  | cons x xs ih =>
      intro b c hab hbc
      cases b with
      | nil => simp [charsLe] at hab
      | cons y ys =>
          cases c with
          | nil => simp [charsLe] at hbc
          | cons z zs =>
              by_cases hxy : x < y
              · by_cases hyz : y < z
                · simp [charsLe, lt_trans hxy hyz]
                · by_cases hzy : z < y
                  · simp [charsLe, hyz, hzy] at hbc
                  · have hyz2 : y = z := le_antisymm (le_of_not_lt hzy) (le_of_not_lt hyz)
                    subst hyz2
                    simp [charsLe, hxy]
              · by_cases hyx : y < x
                · simp [charsLe, hxy, hyx] at hab
                · have hxy2 : x = y := le_antisymm (le_of_not_lt hyx) (le_of_not_lt hxy)
                  subst hxy2
                  simp only [charsLe, lt_irrefl, if_false] at hab
                  by_cases hxz : x < z
                  · simp [charsLe, hxz]
                  · by_cases hzx : z < x
                    · simp [charsLe, hxz, hzx] at hbc
                    · have hxz2 : x = z := le_antisymm (le_of_not_lt hzx) (le_of_not_lt hxz)
                      subst hxz2
                      simp only [charsLe, lt_irrefl, if_false] at hbc ⊢
                      exact ih ys zs hab hbc

theorem charsLe_antisymm :
    ∀ a b : List Char, charsLe a b = true → charsLe b a = true → a = b := by
  intro a
  induction a with
  | nil =>
      intro b _ hba
      cases b with
      | nil => rfl
      | cons y ys => simp [charsLe] at hba
  | cons x xs ih =>
      intro b hab hba
      cases b with
      | nil => simp [charsLe] at hab
      | cons y ys =>
          by_cases hxy : x < y
          · simp [charsLe, hxy, lt_asymm hxy] at hba
          · by_cases hyx : y < x
            · simp [charsLe, hxy, hyx] at hab
            · have hxy2 : x = y := le_antisymm (le_of_not_lt hyx) (le_of_not_lt hxy)
              subst hxy2
              simp only [charsLe, lt_irrefl, if_false] at hab hba
              rw [ih ys hab hba]

theorem strLe_ok : LeOk strLe := by
  refine ⟨?_, ?_, ?_⟩
  · intro a b; exact charsLe_total a.data b.data
  · intro a b c hab hbc; exact charsLe_trans a.data b.data c.data hab hbc
  · intro a b hab hba
    have h := charsLe_antisymm a.data b.data hab hba
    cases a; cases b; exact congrArg String.mk h

theorem lexLe_ok {α β : Type} [DecidableEq α] {leA : α → α → Bool} {leB : β → β → Bool}
    (hA : LeOk leA) (hB : LeOk leB) : LeOk (lexLe leA leB) := by
  refine ⟨?_, ?_, ?_⟩
  · intro x y
    by_cases h : x.1 = y.1
    · simp only [lexLe, if_pos h, if_pos h.symm]
      exact hB.total x.2 y.2
    · simp only [lexLe, if_neg h, if_neg (Ne.symm h)]
      exact hA.total x.1 y.1
  · intro x y z hxy hyz
    by_cases h1 : x.1 = y.1 <;> by_cases h2 : y.1 = z.1
    · rw [lexLe, if_pos h1] at hxy
      rw [lexLe, if_pos h2] at hyz
      rw [lexLe, if_pos (h1.trans h2)]
      exact hB.trans x.2 y.2 z.2 hxy hyz
    · rw [lexLe, if_neg h2] at hyz
      rw [lexLe, if_neg (h1 ▸ h2)]
      rw [h1]
      exact hyz
    · rw [lexLe, if_neg h1] at hxy
      rw [lexLe, if_neg (h2 ▸ h1)]
      rw [← h2]
      exact hxy
    · rw [lexLe, if_neg h1] at hxy
      rw [lexLe, if_neg h2] at hyz
      have h3 : x.1 ≠ z.1 := by
        intro he
        exact h1 (hA.antisymm x.1 y.1 hxy (he ▸ hyz))
      rw [lexLe, if_neg h3]
      exact hA.trans x.1 y.1 z.1 hxy hyz
  · intro x y hxy hyx
    by_cases h : x.1 = y.1
    · rw [lexLe, if_pos h] at hxy
      rw [lexLe, if_pos h.symm] at hyx
      have h2 := hB.antisymm x.2 y.2 hxy hyx
      exact Prod.ext h h2
    · rw [lexLe, if_neg h] at hxy
      rw [lexLe, if_neg (Ne.symm h)] at hyx
      exact absurd (hA.antisymm x.1 y.1 hxy hyx) h

theorem zzLe_ok : LeOk zzLe := lexLe_ok intLe_ok intLe_ok

theorem k3Le_ok : LeOk k3Le := lexLe_ok strLe_ok (lexLe_ok intLe_ok intLe_ok)

theorem z4Le_ok : LeOk z4Le := lexLe_ok strLe_ok (lexLe_ok strLe_ok (lexLe_ok intLe_ok intLe_ok))

/-! ### Small list facts -/

theorem length_le_one_of_const_key {α K : Type} (f : α → K) (c : K) :
    ∀ l : List α, (l.map f).Nodup → (∀ x ∈ l, f x = c) → l.length ≤ 1 := by
  intro l hnd hc
  match l with
  | [] => simp
  | [x] => simp
  | x :: y :: t =>
      exfalso
      have hx : f x = c := hc x (by simp)
      have hy : f y = c := hc y (by simp)
      have hnd2 : (f x :: f y :: List.map f t).Nodup := by simpa using hnd
      have hni := (List.nodup_cons.mp hnd2).1
      have hxy : f x = f y := hx.trans hy.symm
      exact hni (by rw [hxy]; exact List.mem_cons_self _ _)

theorem perm_eq_of_length_le_one {α : Type} {l1 l2 : List α}
    (hp : l1.Perm l2) (hl : l1.length ≤ 1) : l1 = l2 := by
  match l1, hl with
  | [], _ => exact hp.nil_eq
  | [a], _ => exact (List.singleton_perm.mp hp)

theorem filterMap_eq_singleton {α β : Type} (f : α → Option β) (k0 : α) (v : β) :
    ∀ l : List α, l.Nodup → k0 ∈ l → f k0 = some v →
      (∀ k ∈ l, k ≠ k0 → f k = none) → l.filterMap f = [v] := by
  intro l
  induction l with
  | nil => intro _ h; simp at h
  | cons a t ih =>
      intro hnd hmem hv hrest
      rw [List.nodup_cons] at hnd
      rcases List.mem_cons.mp hmem with rfl | hmt
      · rw [List.filterMap_cons_some hv]
        have : t.filterMap f = [] := by
          rw [List.filterMap_eq_nil_iff]
          intro k hk
          exact hrest k (List.mem_cons_of_mem _ hk) (fun he => hnd.1 (he ▸ hk))
        rw [this]
      · have ha : f a = none := hrest a (by simp) (fun he => hnd.1 (he ▸ hmt))
        rw [List.filterMap_cons_none ha]
        exact ih hnd.2 hmt hv (fun k hk hne => hrest k (List.mem_cons_of_mem _ hk) hne)

theorem foldl_min_mem : ∀ (t : List ℚ) (a : ℚ), t.foldl min a ∈ a :: t := by
  intro t
  induction t with
  | nil => intro a; simp
  | cons b t ih =>
      intro a
      rw [List.foldl_cons]
      rcases List.mem_cons.mp (ih (min a b)) with h2 | h2
      · rw [h2]
        rcases min_choice a b with h3 | h3
        · rw [h3]; exact List.mem_cons_self _ _
        · rw [h3]; exact List.mem_cons_of_mem a (List.mem_cons_self _ _)
      · exact List.mem_cons_of_mem a (List.mem_cons_of_mem b h2)

theorem qmin_mem : ∀ l : List ℚ, l ≠ [] → qmin l ∈ l := by
  intro l h
  match l with
  | [] => exact absurd rfl h
  | a :: t =>
      rw [qmin]
      exact foldl_min_mem t a

/-! ### Dict-lookup facts for the verifier -/

theorem lookupProblem_eq_none {rows : List ProblemRow} {k : Int × Int} :
    lookupProblem rows k = none ↔ k ∉ rows.map rowKey := by
  unfold lookupProblem
  rw [List.getLast?_eq_none_iff, List.filter_eq_nil_iff]
  constructor
  · intro h hk
    rcases List.mem_map.mp hk with ⟨r, hr, hrk⟩
    exact h r hr (by simp [hrk])
  · intro h r hr
    simp only [decide_eq_true_eq]
    intro hrk
    exact h (List.mem_map.mpr ⟨r, hr, hrk⟩)

theorem filter_length_le_one_of_key {α K : Type} (f : α → K) (p : α → Bool)
    (hp : ∀ x y, p x = true → p y = true → f x = f y) :
    ∀ l : List α, (l.map f).Nodup → (l.filter p).length ≤ 1 := by
  intro l hnd
  cases hfl : l.filter p with
  | nil => simp
  | cons x t =>
      have hx : x ∈ l.filter p := by rw [hfl]; exact List.mem_cons_self _ _
      have hnd2 : ((x :: t).map f).Nodup := by
        rw [← hfl]
        exact ((List.filter_sublist l).map f).nodup hnd
      rw [← hfl]
      rw [hfl]
      refine length_le_one_of_const_key f (f x) (x :: t) hnd2 ?_
      intro z hz
      have hzf : z ∈ l.filter p := by rw [hfl]; exact hz
      exact hp z x (List.mem_filter.mp hzf).2 (List.mem_filter.mp hx).2

theorem lookup_middle (pre post : List ProblemRow) (p : ProblemRow)
    (hnd : ((pre ++ p :: post).map rowKey).Nodup) :
    lookupProblem (pre ++ p :: post) (rowKey p) = some p := by
  unfold lookupProblem
  have h2 : (pre.map rowKey ++ rowKey p :: post.map rowKey).Nodup := by
    simpa using hnd
  rcases List.nodup_append.mp h2 with ⟨_, hBC, hdisj⟩
  have hpre : pre.filter (fun r => decide (rowKey r = rowKey p)) = [] := by
    rw [List.filter_eq_nil_iff]
    intro x hx
    simp only [decide_eq_true_eq]
    intro hk
    exact hdisj (List.mem_map_of_mem rowKey hx) (hk ▸ List.mem_cons_self _ _)
  have hpost : post.filter (fun r => decide (rowKey r = rowKey p)) = [] := by
    rw [List.filter_eq_nil_iff]
    intro x hx
    simp only [decide_eq_true_eq]
    intro hk
    exact (List.nodup_cons.mp hBC).1 (hk ▸ List.mem_map_of_mem rowKey hx)
  rw [List.filter_append, hpre, List.filter_cons, if_pos (by simp), hpost]
  rfl

theorem lookup_middle_swap (pre post : List ProblemRow) (p q : ProblemRow)
    (hpq : rowKey p = rowKey q) (k : Int × Int) (hne : k ≠ rowKey p) :
    lookupProblem (pre ++ p :: post) k = lookupProblem (pre ++ q :: post) k := by
  unfold lookupProblem
  rw [List.filter_append, List.filter_append, List.filter_cons, List.filter_cons]
  rw [if_neg (by simp only [decide_eq_true_eq]; exact fun h => hne h.symm),
      if_neg (by simp only [decide_eq_true_eq]; rw [← hpq]; exact fun h => hne h.symm)]

/-! ### String concatenation cancels, so one changed field changes the
concatenated content -/

theorem str_data_append (s t : String) : (s ++ t).data = s.data ++ t.data := by
  cases s; cases t; rfl

theorem str_right_cancel {a b c : String} (h : a ++ c = b ++ c) : a = b := by
  have h2 : a.data ++ c.data = b.data ++ c.data := by
    rw [← str_data_append, ← str_data_append, h]
  cases a; cases b
  exact congrArg String.mk (List.append_cancel_right h2)

theorem str_left_cancel {a b c : String} (h : a ++ b = a ++ c) : b = c := by
  have h2 : a.data ++ b.data = a.data ++ c.data := by
    rw [← str_data_append, ← str_data_append, h]
  cases b; cases c
  exact congrArg String.mk (List.append_cancel_left h2)

theorem hash_ne_of_oneFieldDiff {p1 p2 : ProblemRow} {fld : String}
    (h : oneFieldDiff p1 p2 fld) : hash_problem p1 ≠ hash_problem p2 := by
  unfold hash_problem
  rcases h with ⟨_, hne, h2, h3, h4, h5⟩ | ⟨_, h1, hne, h3, h4, h5⟩ |
    ⟨_, h1, h2, hne, h4, h5⟩ | ⟨_, h1, h2, h3, hne, h5⟩ | ⟨_, h1, h2, h3, h4, hne⟩
  · rw [h2, h3, h4, h5]
    intro he
    exact hne (str_right_cancel (str_right_cancel (str_right_cancel (str_right_cancel he))))
  · rw [h1, h3, h4, h5]
    intro he
    exact hne (str_left_cancel
      (str_right_cancel (str_right_cancel (str_right_cancel he))))
  · rw [h1, h2, h4, h5]
    intro he
    exact hne (str_left_cancel (str_right_cancel (str_right_cancel he)))
  · rw [h1, h2, h3, h5]
    intro he
    exact hne (str_left_cancel (str_right_cancel he))
  · rw [h1, h2, h3, h4]
    intro he
    exact hne (str_left_cancel he)

theorem find_differences_of_oneFieldDiff {p1 p2 : ProblemRow} {fld : String}
    (h : oneFieldDiff p1 p2 fld) : find_differences p1 p2 = [fld] := by
  rcases h with ⟨rfl, hne, h2, h3, h4, h5⟩ | ⟨rfl, h1, hne, h3, h4, h5⟩ |
    ⟨rfl, h1, h2, hne, h4, h5⟩ | ⟨rfl, h1, h2, h3, hne, h5⟩ | ⟨rfl, h1, h2, h3, h4, hne⟩
  · simp [find_differences, problemFields, hne, h2, h3, h4, h5]
  · simp [find_differences, problemFields, h1, hne, h3, h4, h5]
  · simp [find_differences, problemFields, h1, h2, hne, h4, h5]
  · simp [find_differences, problemFields, h1, h2, h3, hne, h5]
  · simp [find_differences, problemFields, h1, h2, h3, h4, hne]

/-! ### Relating `analyze_directory` to the per-file resolution -/

theorem analyze_directory_ok :
    ∀ (files : List FileInput) (data : List DataEntry),
      analyze_directory files = Except.ok data →
        data = (files.map entryOf).reduceOption := by
  intro files
  induction files with
  | nil =>
      intro data h
      simp only [analyze_directory] at h
      injection h with h2
      simp [← h2]
  | cons f rest ih =>
      intro data h
      simp only [analyze_directory] at h
      cases hrf : resolveFile f with
      | error e => rw [hrf] at h; simp at h
      | ok o =>
          rw [hrf] at h
          cases har : analyze_directory rest with
          | error e => rw [har] at h; simp at h
          | ok ds =>
              rw [har] at h
              simp only [] at h
              injection h with h2
              have hds := ih ds har
              have hof : entryOf f = o := by rw [entryOf, hrf]
              rw [← h2, List.map_cons, hof]
              cases o with
              | some d => rw [List.reduceOption_cons_of_some, hds]
              | none => rw [List.reduceOption_cons_of_none, hds]

theorem analyze_directory_perm {files1 files2 : List FileInput}
    {data1 data2 : List DataEntry} (hp : files1.Perm files2)
    (h1 : analyze_directory files1 = Except.ok data1)
    (h2 : analyze_directory files2 = Except.ok data2) : data1.Perm data2 := by
  rw [analyze_directory_ok files1 data1 h1, analyze_directory_ok files2 data2 h2]
  exact (hp.map entryOf).filterMap id

theorem mem_analyze_directory {files : List FileInput} {data : List DataEntry}
    {e : DataEntry} (h : analyze_directory files = Except.ok data) (he : e ∈ data) :
    ∃ f ∈ files, resolveFile f = Except.ok (some e) := by
  rw [analyze_directory_ok files data h] at he
  rw [List.reduceOption_mem_iff] at he
  rcases List.mem_map.mp he with ⟨f, hf, hfe⟩
  refine ⟨f, hf, ?_⟩
  rw [entryOf] at hfe
  cases hr : resolveFile f with
  | ok o => rw [hr] at hfe; simp only [] at hfe; rw [hfe]
  | error s => rw [hr] at hfe; simp at hfe

theorem resolveFile_ok_some_iff {f : FileInput} {e : DataEntry} :
    resolveFile f = Except.ok (some e) ↔
      (parse_result_file f.lines).2 ≠ [] ∧
      ∃ t a,
        timeoutOf (parse_result_file f.lines).1 (searchFilename f.filename) = some t ∧
        agentsOf (parse_result_file f.lines).1 (searchFilename f.filename) = some a ∧
        e = mkEntry (algoOf (parse_result_file f.lines).1 (searchFilename f.filename))
              (networkOf (parse_result_file f.lines).1 (searchFilename f.filename))
              t a (parse_result_file f.lines).2 := by
  unfold resolveFile
  by_cases hres : (parse_result_file f.lines).2 = []
  · simp [hres]
  · rw [if_neg hres]
    cases ht : timeoutOf (parse_result_file f.lines).1 (searchFilename f.filename) with
    | none => simp [hres]
    | some t =>
        cases ha : agentsOf (parse_result_file f.lines).1 (searchFilename f.filename) with
        | none => simp [hres]
        | some a =>
            simp only []
            constructor
            · intro h
              injection h with h2
              injection h2 with h3
              exact ⟨hres, t, a, rfl, rfl, h3.symm⟩
            · rintro ⟨-, t2, a2, ht2, ha2, he⟩
              injection ht2 with ht3
              injection ha2 with ha3
              rw [he, ht3, ha3]

/-! ### Generic facts about `compareAt` -/

theorem compareAt_of_lookups {n1 n2 : String} {rows1 rows2 : List ProblemRow}
    {k : Int × Int} {p1 p2 : ProblemRow}
    (h1 : lookupProblem rows1 k = some p1) (h2 : lookupProblem rows2 k = some p2) :
    compareAt n1 n2 rows1 rows2 k =
      if hash_problem p1 = hash_problem p2 then none
      else some ⟨k.1, k.2, DiffType.content_mismatch, n1, n2, find_differences p1 p2⟩ := by
  unfold compareAt
  rw [h1, h2]

theorem compareAt_none_left {n1 n2 : String} {rows1 rows2 : List ProblemRow}
    {k : Int × Int} (h : lookupProblem rows1 k = none) :
    compareAt n1 n2 rows1 rows2 k =
      some ⟨k.1, k.2, DiffType.missing_in_file1, n1, n2, []⟩ := by
  unfold compareAt
  rw [h]

theorem compareAt_some_none {n1 n2 : String} {rows1 rows2 : List ProblemRow}
    {k : Int × Int} {p1 : ProblemRow} (h1 : lookupProblem rows1 k = some p1)
    (h2 : lookupProblem rows2 k = none) :
    compareAt n1 n2 rows1 rows2 k =
      some ⟨k.1, k.2, DiffType.missing_in_file2, n1, n2, []⟩ := by
  unfold compareAt
  rw [h1, h2]

theorem compareAt_fields {n1 n2 : String} {rows1 rows2 : List ProblemRow}
    {k : Int × Int} {d : Difference}
    (h : compareAt n1 n2 rows1 rows2 k = some d) :
    d.problem_id = k.1 ∧ d.seed = k.2 := by
  cases hl1 : lookupProblem rows1 k with
  | none =>
      rw [compareAt_none_left hl1] at h
      injection h with h2; rw [← h2]; exact ⟨rfl, rfl⟩
  | some p1 =>
      cases hl2 : lookupProblem rows2 k with
      | none =>
          rw [compareAt_some_none hl1 hl2] at h
          injection h with h2; rw [← h2]; exact ⟨rfl, rfl⟩
      | some p2 =>
          rw [compareAt_of_lookups hl1 hl2] at h
          by_cases hh : hash_problem p1 = hash_problem p2
          · rw [if_pos hh] at h; exact absurd h (by simp)
          · rw [if_neg hh] at h
            injection h with h2
            rw [← h2]
            exact ⟨rfl, rfl⟩

theorem mem_allKeysOf {rows1 rows2 : List ProblemRow} {k : Int × Int} :
    k ∈ allKeysOf rows1 rows2 ↔
      k ∈ rows1.map rowKey ∨ k ∈ rows2.map rowKey := by
  unfold allKeysOf
  rw [(perm_isort zzLe _).mem_iff, List.mem_dedup, List.mem_append]

/-- C4 (amended): for problem-export files whose rows have pairwise
distinct `(problem_id, seed)` keys, two files that are identical except
that exactly one field of exactly one record differs produce exactly
one divergence, of kind content-mismatch, whose field-level detail names
exactly that field and no other. -/
theorem claim_C4 (n1 n2 : String)
    (pre post : List ProblemRow) (p1 p2 : ProblemRow) (fld : String)
    (hnd : ((pre ++ p1 :: post).map rowKey).Nodup)
    (hk : rowKey p1 = rowKey p2) (hd : oneFieldDiff p1 p2 fld) :
    compare_problems n1 n2 (pre ++ p1 :: post) (pre ++ p2 :: post) =
      [⟨p1.problem_id, p1.seed, DiffType.content_mismatch, n1, n2, [fld]⟩] := by
  have hkeys2 : (pre ++ p2 :: post).map rowKey = (pre ++ p1 :: post).map rowKey := by
    simp [hk]
  have hnd2 : ((pre ++ p2 :: post).map rowKey).Nodup := by rw [hkeys2]; exact hnd
  have hl1 : lookupProblem (pre ++ p1 :: post) (rowKey p1) = some p1 :=
    lookup_middle pre post p1 hnd
  have hl2 : lookupProblem (pre ++ p2 :: post) (rowKey p1) = some p2 := by
    rw [hk]; exact lookup_middle pre post p2 hnd2
  unfold compare_problems
  refine filterMap_eq_singleton _ (rowKey p1) _ _ ?_ ?_ ?_ ?_
  · exact ((perm_isort zzLe _).nodup_iff).mpr (List.nodup_dedup _)
  · exact mem_allKeysOf.mpr (Or.inl (List.mem_map_of_mem rowKey (by simp)))
  · rw [compareAt_of_lookups hl1 hl2, if_neg (hash_ne_of_oneFieldDiff hd),
        find_differences_of_oneFieldDiff hd]
    rfl
  · intro k hkmem hne
    have hmem1 : k ∈ (pre ++ p1 :: post).map rowKey := by
      rcases mem_allKeysOf.mp hkmem with h | h
      · exact h
      · rw [hkeys2] at h; exact h
    have hlkeq : lookupProblem (pre ++ p1 :: post) k =
        lookupProblem (pre ++ p2 :: post) k :=
      lookup_middle_swap pre post p1 p2 hk k hne
    cases hl : lookupProblem (pre ++ p1 :: post) k with
    | none => exact absurd hmem1 (lookupProblem_eq_none.mp hl)
    | some r =>
        have hl2k : lookupProblem (pre ++ p2 :: post) k = some r := by
          rw [← hlkeq]; exact hl
        rw [compareAt_of_lookups hl hl2k, if_pos rfl]

/-- C4: the claim as stated is refuted by a file whose two rows share
one `(problem_id, seed)` key: the dict built by `read_problems` keeps
only the later row, so changing one field of the earlier row produces
*zero* divergences instead of exactly one. -/
theorem claim_C4_counterexample :
    oneFieldDiff vC4r1 vC4r1x "num_agents" ∧ rowKey vC4r1 = rowKey vC4r2 ∧
    compare_problems "f1.csv" "f2.csv" [vC4r1, vC4r2] [vC4r1x, vC4r2] = [] := by
  refine ⟨?_, by decide, by decide⟩
  left
  refine ⟨rfl, by decide, rfl, rfl, rfl, rfl⟩

/-- Witness for `claim_C4` at a concrete two-row file. -/
theorem claim_C4_witness :
    compare_problems "a.csv" "b.csv" [wC4a, wC4b] [wC4ax, wC4b] =
      [⟨1, 1, DiffType.content_mismatch, "a.csv", "b.csv", ["edges"]⟩] := by
  have h := claim_C4 "a.csv" "b.csv" [] [wC4b] wC4a wC4ax "edges" (by decide)
    (by decide)
    (by right; right; right; left; exact ⟨rfl, rfl, rfl, rfl, by decide, rfl⟩)
  simpa using h

/-- C6: the claim as stated is refuted by duplicate-key files: two files
with the *same set* of rows in different order can disagree, because the
dict keeps only the last row of a duplicated key and row order decides
which one that is. -/
theorem claim_C6_counterexample :
    ([vC6a, vC6b] : List ProblemRow).Perm [vC6b, vC6a] ∧
    rowKey vC6a = rowKey vC6b ∧
    compare_problems "f1.csv" "f2.csv" [vC6a, vC6b] [vC6b, vC6a] ≠ [] :=
  ⟨List.Perm.swap vC6b vC6a [], by decide, by decide⟩

/-- C6 (amended): for problem-export files whose rows have pairwise
distinct `(problem_id, seed)` keys, two files with the same set of rows
— in any order — produce zero divergences: the comparison is keyed by
`(problem_id, seed)`, not by line position. -/
theorem claim_C6 (n1 n2 : String) (rows1 rows2 : List ProblemRow)
    (hp : rows1.Perm rows2) (hnd : (rows1.map rowKey).Nodup) :
    compare_problems n1 n2 rows1 rows2 = [] := by
  rw [compare_problems, List.filterMap_eq_nil_iff]
  intro k hk
  have hmem : k ∈ rows1.map rowKey := by
    rcases mem_allKeysOf.mp hk with h | h
    · exact h
    · exact ((hp.map rowKey).mem_iff).mpr h
  have hle : (rows1.filter (fun r => decide (rowKey r = k))).length ≤ 1 := by
    refine filter_length_le_one_of_key rowKey _ ?_ rows1 hnd
    intro x y hx hy
    rw [decide_eq_true_eq] at hx hy
    rw [hx, hy]
  have hfeq : rows1.filter (fun r => decide (rowKey r = k)) =
      rows2.filter (fun r => decide (rowKey r = k)) :=
    perm_eq_of_length_le_one (hp.filter _) hle
  have hlk : lookupProblem rows1 k = lookupProblem rows2 k := by
    unfold lookupProblem
    rw [hfeq]
  cases hl : lookupProblem rows1 k with
  | none => exact absurd hmem (lookupProblem_eq_none.mp hl)
  | some r =>
      have hl2 : lookupProblem rows2 k = some r := by rw [← hlk]; exact hl
      rw [compareAt_of_lookups hl hl2, if_pos rfl]

/-- Witness for `claim_C6`: two concrete distinct-key files with the
same rows in swapped order compare clean. -/
theorem claim_C6_witness :
    compare_problems "a.csv" "b.csv" [wC4a, wC4b] [wC4b, wC4a] = [] :=
  claim_C6 "a.csv" "b.csv" [wC4a, wC4b] [wC4b, wC4a]
    (List.Perm.swap wC4b wC4a []) (by decide)

/-- C5: with at least two input files, the verifier exits 0 iff the
union of divergences over all pairwise comparisons is empty and exits 1
otherwise; on failure the divergences are grouped by kind, and each kind
shows its first 10 divergences in full (`min 10 total` of them) next to
the kind's total count. -/
theorem claim_C5 (files : List VFile) (h2 : 2 ≤ files.length) :
    (verifierExit files = 0 ↔ allPairDifferences files = []) ∧
    (verifierExit files = 1 ↔ allPairDifferences files ≠ []) ∧
    (∀ t shown total, (t, shown, total) ∈ diffReport (allPairDifferences files) →
      shown = (diffsOfType (allPairDifferences files) t).take 10 ∧
      total = (diffsOfType (allPairDifferences files) t).length ∧
      shown.length = min 10 total) := by
  have hn : ¬ files.length < 2 := by omega
  unfold verifierExit
  rw [if_neg hn]
  refine ⟨?_, ?_, ?_⟩
  · by_cases h : allPairDifferences files = [] <;> simp [h]
  · by_cases h : allPairDifferences files = [] <;> simp [h]
  · intro t shown total hmem
    unfold diffReport at hmem
    rcases List.mem_map.mp hmem with ⟨t2, _, heq⟩
    have h3 : t2 = t ∧ (diffsOfType (allPairDifferences files) t2).take 10 = shown ∧
        (diffsOfType (allPairDifferences files) t2).length = total := by
      simpa [Prod.ext_iff] using heq
    obtain ⟨rfl, hsh, htot⟩ := h3
    refine ⟨hsh.symm, htot.symm, ?_⟩
    rw [← hsh, ← htot, List.length_take]

/-- Witness for `claim_C5`: two identical concrete files, exit 0. -/
theorem claim_C5_witness : verifierExit [vF5a, vF5b] = 0 :=
  (claim_C5 [vF5a, vF5b] (by decide)).1.mpr (by decide)

/-- C10: for a key present in both files, the verifier records a
divergence for that key exactly when the unseparated concatenations
`num_agents ++ domain_size ++ num_edges ++ edges ++ cost_matrices`
differ (`hash_problem` is that concatenation, standing in for its md5);
records whose fields differ with equal concatenations diverge nowhere. -/
theorem claim_C10 (n1 n2 : String) (rows1 rows2 : List ProblemRow)
    (k : Int × Int) (p1 p2 : ProblemRow)
    (h1 : lookupProblem rows1 k = some p1)
    (h2 : lookupProblem rows2 k = some p2) :
    (∃ d ∈ compare_problems n1 n2 rows1 rows2,
        d.problem_id = k.1 ∧ d.seed = k.2) ↔
      hash_problem p1 ≠ hash_problem p2 := by
  have hmem : k ∈ allKeysOf rows1 rows2 := by
    refine mem_allKeysOf.mpr (Or.inl ?_)
    by_contra hno
    rw [← lookupProblem_eq_none] at hno
    rw [h1] at hno
    exact absurd hno (by simp)
  constructor
  · rintro ⟨d, hd, hpid, hseed⟩
    rw [compare_problems] at hd
    rcases List.mem_filterMap.mp hd with ⟨k2, _, hck2⟩
    have hf := compareAt_fields hck2
    have hkk : k2 = k := by
      have : (k2.1, k2.2) = (k.1, k.2) := by
        rw [← hf.1, ← hf.2, hpid, hseed]
      simpa using this
    rw [hkk] at hck2
    rw [compareAt_of_lookups h1 h2] at hck2
    intro hh
    rw [if_pos hh] at hck2
    exact absurd hck2 (by simp)
  · intro hh
    refine ⟨⟨k.1, k.2, DiffType.content_mismatch, n1, n2, find_differences p1 p2⟩,
      ?_, rfl, rfl⟩
    rw [compare_problems]
    refine List.mem_filterMap.mpr ⟨k, hmem, ?_⟩
    rw [compareAt_of_lookups h1 h2, if_neg hh]

/-- Witness for `claim_C10`: two records whose field boundaries are
shifted (`1|23|4|e|c` against `12|3|4|e|c`) differ in two fields but
share the concatenation `1234ec`, and the verifier reports no divergence
for their key. -/
theorem claim_C10_witness :
    find_differences vC10a vC10b = ["num_agents", "domain_size"] ∧
    ¬ (∃ d ∈ compare_problems "a.csv" "b.csv" [vC10a] [vC10b],
         d.problem_id = 1 ∧ d.seed = 1) := by
  refine ⟨by decide, ?_⟩
  intro hx
  have h := claim_C10 "a.csv" "b.csv" [vC10a] [vC10b] (1, 1) vC10a vC10b rfl rfl
  exact (h.mp hx) (by decide)

/-! ### Zero-round statistics (claim C7) -/

theorem mkEntry_zero_facts (algo net : String) (t a : Int)
    (results : List TrialRecord) (hres : results ≠ []) :
    (mkEntry algo net t a results).zero_round_count ≤
      (mkEntry algo net t a results).num_problems ∧
    ((mkEntry algo net t a results).zero_round_pct = 100 ↔
      ∀ r ∈ results, r.rounds = 0) := by
  have hlen : (mkEntry algo net t a results).num_problems = results.length := rfl
  have hz : (mkEntry algo net t a results).zero_round_count =
      ((results.map TrialRecord.rounds).filter (fun r => decide (r = 0))).length := rfl
  constructor
  · rw [hz, hlen]
    calc ((results.map TrialRecord.rounds).filter (fun r => decide (r = 0))).length
        ≤ (results.map TrialRecord.rounds).length := List.length_filter_le _ _
      _ = results.length := List.length_map _ _
  · have hn0 : (results.length : ℚ) ≠ 0 := by
      simp only [ne_eq, Nat.cast_eq_zero, List.length_eq_zero]
      exact hres
    have hkey :
        (((results.map TrialRecord.rounds).filter (fun r => decide (r = 0))).length
          = results.length) ↔ (∀ r ∈ results, r.rounds = 0) := by
      rw [show results.length = (results.map TrialRecord.rounds).length from
            (List.length_map _ _).symm,
          List.filter_length_eq_length]
      constructor
      · intro h r hr
        have := h r.rounds (List.mem_map_of_mem TrialRecord.rounds hr)
        simpa using this
      · intro h x hx
        rcases List.mem_map.mp hx with ⟨r, hr, hrx⟩
        simp [← hrx, h r hr]
    have hpct : (mkEntry algo net t a results).zero_round_pct =
        ((100 * ((results.map TrialRecord.rounds).filter
          (fun r => decide (r = 0))).length : ℕ) : ℚ) / (results.length : ℚ) := rfl
    rw [hpct, div_eq_iff hn0, ← hkey]
    push_cast
    constructor
    · intro h
      have h2 := mul_left_cancel₀ (by norm_num : (100 : ℚ) ≠ 0) h
      exact_mod_cast h2
    · intro h
      rw [h]

/-- C7: for every aggregate entry produced from a directory of result
files, `zero_round_count ≤ sample_count` (`num_problems`); and for the
entry aggregated from any one file, `zero_round_pct = 100` exactly when
every parsed trial record of that file has `rounds = 0`.  (Each entry is
aggregated from exactly one file's rows, so the second conjunct is the
per-group statement of the claim.) -/
theorem claim_C7 :
    (∀ (files : List FileInput) (data : List DataEntry),
      analyze_directory files = Except.ok data →
        ∀ e ∈ data, e.zero_round_count ≤ e.num_problems) ∧
    (∀ (f : FileInput) (e : DataEntry), resolveFile f = Except.ok (some e) →
      e.zero_round_count ≤ e.num_problems ∧
      (e.zero_round_pct = 100 ↔
        ∀ r ∈ (parse_result_file f.lines).2, r.rounds = 0)) := by
  have main : ∀ (f : FileInput) (e : DataEntry),
      resolveFile f = Except.ok (some e) →
        e.zero_round_count ≤ e.num_problems ∧
        (e.zero_round_pct = 100 ↔
          ∀ r ∈ (parse_result_file f.lines).2, r.rounds = 0) := by
    intro f e h
    rcases resolveFile_ok_some_iff.mp h with ⟨hres, t, a, _, _, he⟩
    rw [he]
    exact mkEntry_zero_facts _ _ t a _ hres
  refine ⟨?_, main⟩
  intro files data hok e he
  rcases mem_analyze_directory hok he with ⟨f, _, hf⟩
  exact (main f e hf).1

/-- Witness for `claim_C7` at a concrete all-zero-rounds file. -/
theorem claim_C7_witness :
    ∃ e, resolveFile aC7file = Except.ok (some e) ∧
      e.zero_round_count ≤ e.num_problems ∧
      (e.zero_round_pct = 100 ↔
        ∀ r ∈ (parse_result_file aC7file.lines).2, r.rounds = 0) := by
  obtain ⟨e, he⟩ : ∃ e, resolveFile aC7file = Except.ok (some e) := ⟨_, rfl⟩
  exact ⟨e, he, claim_C7.2 aC7file e he⟩

/-! ### Configuration resolution (claims C2 and C3) -/

/-- C2: contrary to the claim, a fully unresolved file is *not* excluded
from aggregation — `aC2file` has no algorithm and no topology derivable
from either source, yet it contributes an `UNKNOWN` entry and a
comparison-table row.  The only skip is for files with no valid rows. -/
theorem claim_C2_counterexample :
    (analyze_directory [aC2file]).toOption.map
        (fun d => (d.map DataEntry.algorithm, d.map DataEntry.network,
                   (renderReport d).compTable.length)) =
      some (["UNKNOWN"], ["UNKNOWN"], 1) := by
  decide

/-- C2 (amended): a result file is skipped iff it yields no valid trial
rows; a file whose configuration is fully unresolved (none of the four
config keys present, filename pattern not matching) is still aggregated,
silently, under the sentinels `UNKNOWN`/`0`. -/
theorem claim_C2 :
    (∀ f : FileInput,
      resolveFile f = Except.ok none ↔ (parse_result_file f.lines).2 = []) ∧
    (∀ (f : FileInput) (cfg : List (String × String)) (results : List TrialRecord),
      parse_result_file f.lines = (cfg, results) → results ≠ [] →
      cfgGet cfg "algorithm" = none → cfgGet cfg "network_type" = none →
      cfgGet cfg "timeout_sec" = none → cfgGet cfg "num_agents" = none →
      searchFilename f.filename = none →
      ∃ e, resolveFile f = Except.ok (some e) ∧ e.algorithm = "UNKNOWN" ∧
        e.network = "UNKNOWN" ∧ e.timeout = 0 ∧ e.agents = 0) := by
  constructor
  · intro f
    unfold resolveFile
    by_cases hres : (parse_result_file f.lines).2 = []
    · simp [hres]
    · rw [if_neg hres]
      cases ht : timeoutOf (parse_result_file f.lines).1 (searchFilename f.filename) with
      | none => simp [hres]
      | some t =>
          cases ha : agentsOf (parse_result_file f.lines).1 (searchFilename f.filename) with
          | none => simp [hres]
          | some a => simp [hres]
  · intro f cfg results hparse hres ha hn ht hg hs
    have h1 : (parse_result_file f.lines).1 = cfg := by rw [hparse]
    have h2 : (parse_result_file f.lines).2 = results := by rw [hparse]
    refine ⟨mkEntry "UNKNOWN" "UNKNOWN" 0 0 results, ?_, rfl, rfl, rfl, rfl⟩
    unfold resolveFile
    rw [h2, if_neg hres, h1, hs]
    have htt : timeoutOf cfg none = some 0 := by unfold timeoutOf; rw [ht]
    have hgg : agentsOf cfg none = some 0 := by unfold agentsOf; rw [hg]
    have haa : algoOf cfg none = "UNKNOWN" := by unfold algoOf; rw [ha]
    have hnn : networkOf cfg none = "UNKNOWN" := by unfold networkOf; rw [hn]
    rw [htt, hgg, haa, hnn]

/-- Witness for `claim_C2` at the concrete fully-unresolved file. -/
theorem claim_C2_witness :
    ∃ e, resolveFile aC2file = Except.ok (some e) ∧ e.algorithm = "UNKNOWN" ∧
      e.network = "UNKNOWN" ∧ e.timeout = 0 ∧ e.agents = 0 :=
  claim_C2.2 aC2file (parse_result_file aC2file.lines).1
    (parse_result_file aC2file.lines).2 rfl (by decide) (by decide) (by decide)
    (by decide) (by decide) (by decide)

/-- C3: two refutations of the precedence rule as stated.  First, a
config key that is present with an *empty* value wins over the filename:
`aC3file` has `algorithm` present as `''` while its name encodes `PDSA`,
and the resolved algorithm is `''`, not `PDSA`.  Second, the filename
pattern does not cover every supported algorithm name: a `PMAXSUM`
filename does not match. -/
theorem claim_C3_counterexample :
    (resolveFile aC3file).toOption.map (Option.map DataEntry.algorithm) =
      some (some "") ∧
    (searchFilename aC3file.filename).map FMatch.algo = some "PDSA" ∧
    searchFilename "x_PMAXSUM_RANDOM_t60_n10_results.csv" = none := by
  refine ⟨by decide, by decide, by decide⟩

theorem specResolveConfig_eq (cfg : List (String × String)) (fn : String) :
    specResolveConfig cfg fn =
      match timeoutOf cfg (searchFilename fn), agentsOf cfg (searchFilename fn) with
      | some t, some a =>
          some ⟨algoOf cfg (searchFilename fn), networkOf cfg (searchFilename fn),
                t, a⟩
      | _, _ => none := by
  unfold specResolveConfig algoOf networkOf timeoutOf agentsOf
  cases cfgGet cfg "algorithm" <;> cases cfgGet cfg "network_type" <;>
    cases cfgGet cfg "timeout_sec" <;> cases cfgGet cfg "num_agents" <;>
    cases searchFilename fn <;> rfl

/-- C3 (amended): the per-field precedence actually implemented — the
in-file config value whenever the key is *present* (even empty);
otherwise the value extracted from a filename matching
`_(PDSA|PMGM)_(RANDOM|SCALE_FREE)_t(\d+)_n(\d+)_`; otherwise `UNKNOWN`
for the enum fields and `0` for the numeric fields — with a present but
non-integer numeric value aborting the run.  `specResolveConfig` states
that rule in the spec's per-field form; `resolveFile` is the code. -/
theorem claim_C3 :
    (∀ (f : FileInput) (e : DataEntry), resolveFile f = Except.ok (some e) →
      specResolveConfig (parse_result_file f.lines).1 f.filename =
        some ⟨e.algorithm, e.network, e.timeout, e.agents⟩) ∧
    (∀ f : FileInput, (parse_result_file f.lines).2 ≠ [] →
      specResolveConfig (parse_result_file f.lines).1 f.filename = none →
      ∃ msg, resolveFile f = Except.error msg) := by
  constructor
  · intro f e h
    rcases resolveFile_ok_some_iff.mp h with ⟨hres, t, a, ht, ha, he⟩
    rw [specResolveConfig_eq, ht, ha, he]
    rfl
  · intro f hres hnone
    rw [specResolveConfig_eq] at hnone
    unfold resolveFile
    rw [if_neg hres]
    cases ht : timeoutOf (parse_result_file f.lines).1 (searchFilename f.filename) with
    | none =>
        cases ha : agentsOf (parse_result_file f.lines).1 (searchFilename f.filename) with
        | none => exact ⟨_, rfl⟩
        | some a => exact ⟨_, rfl⟩
    | some t =>
        cases ha : agentsOf (parse_result_file f.lines).1 (searchFilename f.filename) with
        | none => exact ⟨_, rfl⟩
        | some a => rw [ht, ha] at hnone; simp at hnone

/-- Witness for `claim_C3` at a concrete file with a full config. -/
theorem claim_C3_witness :
    ∃ e, resolveFile aC8wa = Except.ok (some e) ∧
      specResolveConfig (parse_result_file aC8wa.lines).1 aC8wa.filename =
        some ⟨e.algorithm, e.network, e.timeout, e.agents⟩ := by
  obtain ⟨e, he⟩ : ∃ e, resolveFile aC8wa = Except.ok (some e) := ⟨_, rfl⟩
  exact ⟨e, he, claim_C3.1 aC8wa e he⟩

/-! ### Winner selection (claim C1) -/

theorem validCosts_names (data : List DataEntry) (k : String × Int × Int) :
    ∀ p ∈ validCosts data k, p.1 = "PDSA" ∨ p.1 = "PMGM" ∨ p.1 = "PMAXSUM" := by
  intro p hp
  unfold validCosts at hp
  rw [List.mem_append] at hp
  rcases hp with hp | hp
  · rw [List.mem_append] at hp
    rcases hp with hp | hp
    · cases h : lookupAlgo data k "PDSA" with
      | none => rw [h] at hp; simp at hp
      | some d =>
          rw [h] at hp
          rw [List.mem_singleton] at hp
          rw [hp]
          left; rfl
    · cases h : lookupAlgo data k "PMGM" with
      | none => rw [h] at hp; simp at hp
      | some d =>
          rw [h] at hp
          rw [List.mem_singleton] at hp
          rw [hp]
          right; left; rfl
  · by_cases hb : hasPmaxsum data = true
    · rw [if_pos hb] at hp
      cases h : lookupAlgo data k "PMAXSUM" with
      | none => rw [h] at hp; simp at hp
      | some d =>
          rw [h] at hp
          rw [List.mem_singleton] at hp
          rw [hp]
          right; right; rfl
    · rw [if_neg hb] at hp; simp at hp

theorem minAttainers_ne_nil (data : List DataEntry) (k : String × Int × Int)
    (h : validCosts data k ≠ []) : minAttainers data k ≠ [] := by
  unfold minAttainers
  have hm : minCostOf data k ∈ (validCosts data k).map Prod.snd := by
    unfold minCostOf
    exact qmin_mem _ (by simpa using h)
  rcases List.mem_map.mp hm with ⟨p, hp, hpe⟩
  intro hnil
  rw [List.filter_eq_nil_iff] at hnil
  exact hnil p hp (by simp [hpe])

/-- C1 (amended): the winner of a group is computed over the candidate
algorithms PDSA and PMGM — plus PMAXSUM when that algorithm appears
anywhere in the data — that have aggregate data for the group
(`validCosts`), not over all algorithms with data: the winner cell is
`N/A` exactly when no candidate has data (even if some other algorithm,
e.g. `MAXSUM`, does); a unique candidate attaining the minimum average
cost is the winner; and the cell is `TIE` exactly when at least two
candidates attain the exact minimum.  Win tallies count one label per
group row (`winsSummary` counts the winner labels over the sorted group
keys), and the computation is total, so it never raises. -/
theorem claim_C1 (data : List DataEntry) (k : String × Int × Int) :
    (winnerAt data k = "N/A" ↔ validCosts data k = []) ∧
    (∀ a c, minAttainers data k = [(a, c)] → winnerAt data k = a) ∧
    (winnerAt data k = "TIE" ↔ 2 ≤ (minAttainers data k).length) := by
  refine ⟨⟨?_, ?_⟩, ?_, ⟨?_, ?_⟩⟩
  · intro hw
    by_contra hne
    unfold winnerAt at hw
    rw [if_neg hne] at hw
    cases hma : (minAttainers data k).map Prod.fst with
    | nil => rw [hma] at hw; exact absurd hw (by decide)
    | cons w t =>
        cases t with
        | nil =>
            rw [hma] at hw
            have hwmem : w ∈ (minAttainers data k).map Prod.fst := by
              rw [hma]; simp
            rcases List.mem_map.mp hwmem with ⟨p, hp, hpw⟩
            have hpv : p ∈ validCosts data k := List.mem_of_mem_filter hp
            rcases validCosts_names data k p hpv with h | h | h <;>
              rw [← hpw, h] at hw <;> exact absurd hw (by decide)
        | cons w2 t2 =>
            rw [hma] at hw
            exact absurd (show ("TIE" : String) = "N/A" from hw) (by decide)
  · intro hv
    unfold winnerAt
    rw [if_pos hv]
  · intro a c hma
    have hvne : validCosts data k ≠ [] := by
      intro hv
      unfold minAttainers at hma
      rw [hv] at hma
      simp at hma
    unfold winnerAt
    rw [if_neg hvne, hma]
    rfl
  · intro hw
    unfold winnerAt at hw
    by_cases hv : validCosts data k = []
    · rw [if_pos hv] at hw; exact absurd hw (by decide)
    · rw [if_neg hv] at hw
      have hne := minAttainers_ne_nil data k hv
      cases hma : minAttainers data k with
      | nil => exact absurd hma hne
      | cons p t =>
          cases t with
          | nil =>
              rw [hma] at hw
              simp only [List.map_cons, List.map_nil] at hw
              have hpm : p ∈ minAttainers data k := by rw [hma]; simp
              have hpv : p ∈ validCosts data k := by
                unfold minAttainers at hpm
                exact List.mem_of_mem_filter hpm
              rcases validCosts_names data k p hpv with h | h | h <;>
                rw [h] at hw <;> exact absurd hw (by decide)
          | cons q t2 => simp
  · intro hlen
    have hvne : validCosts data k ≠ [] := by
      intro hv
      unfold minAttainers at hlen
      rw [hv] at hlen
      simp at hlen
    unfold winnerAt
    rw [if_neg hvne]
    cases hma : minAttainers data k with
    | nil => rw [hma] at hlen; simp at hlen
    | cons p t =>
        cases t with
        | nil => rw [hma] at hlen; simp at hlen
        | cons q t2 => rfl

/-- C1: the claim as stated is refuted by a group whose only data is for
the algorithm `MAXSUM` (a supported algorithm name the spec itself
lists): exactly one algorithm has data and attains the minimum, yet the
winner is `N/A`, because the code only ever considers PDSA, PMGM and
(conditionally) PMAXSUM. -/
theorem claim_C1_counterexample :
    (analyze_directory [aC1file]).toOption.map
        (fun d => (algosWithData d ("RANDOM", 60, 10),
                   winnerAt d ("RANDOM", 60, 10))) =
      some (["MAXSUM"], "N/A") := by
  decide

/-- Witness for `claim_C1`: a concrete two-entry group whose unique
minimum-cost candidate (PDSA at cost 5 against PMGM at cost 7) wins. -/
theorem claim_C1_witness :
    minAttainers [wC1p, wC1m] ("RANDOM", 60, 10) = [("PDSA", 5)] ∧
    winnerAt [wC1p, wC1m] ("RANDOM", 60, 10) = "PDSA" := by
  have hm : minAttainers [wC1p, wC1m] ("RANDOM", 60, 10) = [("PDSA", 5)] := by
    decide
  exact ⟨hm, (claim_C1 [wC1p, wC1m] ("RANDOM", 60, 10)).2.1 "PDSA" 5 hm⟩

/-! ### The summary delimited file (claim C9) -/

/-- C9 (spec-modelled; the writer itself is not among the `src/` files):
the summary file's header is exactly
`Algorithm, LastRound, AvgCost, MinCost, MaxCost, AvgRuntimeMs,
NumSamples`; there is exactly one row per distinct `(algorithm, round)`
pair occurring in the input (keys are duplicate-free and cover exactly
the input's pairs); and each row carries its group's sample count and
its group's average cost rendered to two decimal places (`format2`). -/
theorem claim_C9 (input : List (String × TrialRecord)) :
    (summaryFile input).1 = ["Algorithm", "LastRound", "AvgCost", "MinCost",
      "MaxCost", "AvgRuntimeMs", "NumSamples"] ∧
    ((summaryFile input).2.map summaryRowKey).Nodup ∧
    (∀ p : String × Int, p ∈ (summaryFile input).2.map summaryRowKey ↔
      p ∈ input.map (fun q => (q.1, q.2.rounds))) ∧
    (∀ row ∈ (summaryFile input).2,
      row.numSamples = (input.filter (fun q =>
        decide (q.1 = row.algorithm ∧ q.2.rounds = row.lastRound))).length ∧
      row.avgCostC = format2
        (((((input.filter (fun q =>
            decide (q.1 = row.algorithm ∧ q.2.rounds = row.lastRound))).map
              (fun q => q.2.final_cost) : List Int).sum : ℚ) /
          ((input.filter (fun q =>
            decide (q.1 = row.algorithm ∧ q.2.rounds = row.lastRound))).length : ℚ)))) := by
  have hkeys : (summaryFile input).2.map summaryRowKey =
      (input.map (fun q => (q.1, q.2.rounds))).dedup := by
    show (((input.map (fun q => (q.1, q.2.rounds))).dedup).map
      (summaryRowFor input)).map summaryRowKey = _
    rw [List.map_map]
    have hid : ∀ pr ∈ (input.map (fun q => (q.1, q.2.rounds))).dedup,
        (summaryRowKey ∘ summaryRowFor input) pr = pr := fun pr _ => rfl
    rw [List.map_congr_left hid]
    exact List.map_id' _
  refine ⟨rfl, ?_, ?_, ?_⟩
  · rw [hkeys]; exact List.nodup_dedup _
  · intro p; rw [hkeys, List.mem_dedup]
  · intro row hrow
    rcases List.mem_map.mp hrow with ⟨pr, _, hpr⟩
    rw [← hpr]
    exact ⟨rfl, rfl⟩

/-- Witness for `claim_C9` at a one-trial input. -/
theorem claim_C9_witness :
    ∃ row ∈ (summaryFile wC9input).2,
      row.numSamples = 1 ∧ summaryRowKey row = ("PDSA", 3) := by
  have hmem : summaryRowFor wC9input ("PDSA", 3) ∈ (summaryFile wC9input).2 :=
    List.mem_singleton.mpr rfl
  have h := (claim_C9 wC9input).2.2.2 _ hmem
  refine ⟨_, hmem, ?_, rfl⟩
  rw [h.1]
  decide

/-! ### Report determinism (claim C8) -/

theorem perm_any {α : Type} (p : α → Bool) {l1 l2 : List α} (hp : l1.Perm l2) :
    l1.any p = l2.any p := by
  cases h1 : l1.any p with
  | true =>
      rw [List.any_eq_true] at h1
      rcases h1 with ⟨x, hx, hpx⟩
      exact (List.any_eq_true.mpr ⟨x, hp.mem_iff.mp hx, hpx⟩).symm
  | false =>
      cases h2 : l2.any p with
      | false => rfl
      | true =>
          rw [List.any_eq_true] at h2
          rcases h2 with ⟨x, hx, hpx⟩
          have := List.any_eq_true.mpr ⟨x, hp.mem_iff.mpr hx, hpx⟩
          rw [h1] at this
          exact absurd this (by simp)

theorem sortedGroupKeys_perm {d1 d2 : List DataEntry} (dp : d1.Perm d2) :
    sortedGroupKeys d1 = sortedGroupKeys d2 := by
  unfold sortedGroupKeys
  refine isort_eq_of_perm k3Le id k3Le_ok.total k3Le_ok.trans
    (fun a b hab hba => k3Le_ok.antisymm a b hab hba)
    ((dp.map groupKey).dedup) ?_
  rw [List.map_id]
  exact List.nodup_dedup _

theorem lookupAlgo_perm {d1 d2 : List DataEntry} (dp : d1.Perm d2)
    (hnd : (d1.map fullKey).Nodup) (k : String × Int × Int) (a : String) :
    lookupAlgo d1 k a = lookupAlgo d2 k a := by
  unfold lookupAlgo
  have hle : (d1.filter
      (fun d => decide (groupKey d = k ∧ d.algorithm = a))).length ≤ 1 := by
    refine filter_length_le_one_of_key fullKey _ ?_ d1 hnd
    intro x y hx hy
    rw [decide_eq_true_eq] at hx hy
    obtain ⟨hgx, hax⟩ := hx
    obtain ⟨hgy, hay⟩ := hy
    have hcomp : x.network = y.network ∧ x.timeout = y.timeout ∧
        x.agents = y.agents := by
      have h := hgx.trans hgy.symm
      unfold groupKey at h
      simpa [Prod.ext_iff] using h
    unfold fullKey
    rw [hax, hay, hcomp.1, hcomp.2.1, hcomp.2.2]
  rw [perm_eq_of_length_le_one (dp.filter _) hle]

theorem validCosts_perm {d1 d2 : List DataEntry} (dp : d1.Perm d2)
    (hnd : (d1.map fullKey).Nodup) (k : String × Int × Int) :
    validCosts d1 k = validCosts d2 k := by
  unfold validCosts hasPmaxsum
  rw [lookupAlgo_perm dp hnd k "PDSA", lookupAlgo_perm dp hnd k "PMGM",
      lookupAlgo_perm dp hnd k "PMAXSUM", perm_any _ dp]

theorem winnerAt_perm {d1 d2 : List DataEntry} (dp : d1.Perm d2)
    (hnd : (d1.map fullKey).Nodup) (k : String × Int × Int) :
    winnerAt d1 k = winnerAt d2 k := by
  unfold winnerAt minAttainers minCostOf
  rw [validCosts_perm dp hnd k]

theorem rowAt_perm {d1 d2 : List DataEntry} (dp : d1.Perm d2)
    (hnd : (d1.map fullKey).Nodup) (k : String × Int × Int) :
    rowAt d1 k = rowAt d2 k := by
  unfold rowAt
  rw [lookupAlgo_perm dp hnd k "PDSA", lookupAlgo_perm dp hnd k "PMGM",
      lookupAlgo_perm dp hnd k "PMAXSUM", winnerAt_perm dp hnd k]

theorem compRows_perm {d1 d2 : List DataEntry} (dp : d1.Perm d2)
    (hnd : (d1.map fullKey).Nodup) : compRows d1 = compRows d2 := by
  unfold compRows
  rw [sortedGroupKeys_perm dp]
  exact List.map_congr_left (fun k _ => rowAt_perm dp hnd k)

theorem winsSummary_perm {d1 d2 : List DataEntry} (dp : d1.Perm d2)
    (hnd : (d1.map fullKey).Nodup) : winsSummary d1 = winsSummary d2 := by
  unfold winsSummary
  rw [sortedGroupKeys_perm dp,
      List.map_congr_left (fun k _ => winnerAt_perm dp hnd k)]

theorem zeroRows_perm {d1 d2 : List DataEntry} (dp : d1.Perm d2)
    (hnd : (d1.map fullKey).Nodup) : zeroRows d1 = zeroRows d2 := by
  unfold zeroRows
  have hzmap : ∀ d : List DataEntry, d.map zKey = (d.map fullKey).map
      (fun x : String × String × Int × Int => (x.1, x.2.1, x.2.2.2, x.2.2.1)) := by
    intro d
    rw [List.map_map]
    exact List.map_congr_left (fun x _ => rfl)
  have hinj : Function.Injective
      (fun x : String × String × Int × Int => (x.1, x.2.1, x.2.2.2, x.2.2.1)) := by
    intro a b h
    simp only [Prod.ext_iff] at h ⊢
    exact ⟨h.1, h.2.1, h.2.2.2, h.2.2.1⟩
  have hznd : (d1.map zKey).Nodup := by
    rw [hzmap d1]
    exact hnd.map hinj
  have hfnd : ((d1.filter (fun d => decide (0 < d.zero_round_count))).map
      zKey).Nodup :=
    ((List.filter_sublist d1).map zKey).nodup hznd
  rw [isort_eq_of_perm (fun a b => z4Le (zKey a) (zKey b)) zKey
    (fun a b => z4Le_ok.total (zKey a) (zKey b))
    (fun a b c hab hbc => z4Le_ok.trans (zKey a) (zKey b) (zKey c) hab hbc)
    (fun a b hab hba => z4Le_ok.antisymm (zKey a) (zKey b) hab hba)
    (dp.filter _) hfnd]

theorem mkSummary_perm {d1 d2 : List DataEntry} (dp : d1.Perm d2)
    (p : String × Int) : mkSummary d1 p = mkSummary d2 p := by
  have hf : (d1.filter (fun d => decide (d.algorithm = p.1 ∧ d.agents = p.2))).Perm
      (d2.filter (fun d => decide (d.algorithm = p.1 ∧ d.agents = p.2))) :=
    dp.filter _
  simp only [mkSummary]
  rw [hf.length_eq, (hf.map DataEntry.avg_cost).sum_eq,
      (hf.map DataEntry.avg_rounds).sum_eq,
      (hf.map DataEntry.num_problems).sum_eq,
      (hf.map DataEntry.zero_round_count).sum_eq]

theorem summaryEntries_perm {d1 d2 : List DataEntry} (dp : d1.Perm d2) :
    summaryEntries d1 = summaryEntries d2 := by
  unfold summaryEntries
  rw [List.map_congr_left
    (fun p _ => mkSummary_perm dp p : ∀ p ∈ (d1.map
      (fun d => (d.algorithm, d.agents))).dedup, mkSummary d1 p = mkSummary d2 p)]
  have hperm : (((d1.map (fun d => (d.algorithm, d.agents))).dedup).map
      (mkSummary d2)).Perm
      (((d2.map (fun d => (d.algorithm, d.agents))).dedup).map (mkSummary d2)) :=
    ((dp.map _).dedup).map _
  refine isort_eq_of_perm
    (fun a b => lexLe intLe strLe (a.agents, a.algorithm) (b.agents, b.algorithm))
    (fun e => (e.agents, e.algorithm))
    (fun a b => (lexLe_ok intLe_ok strLe_ok).total (a.agents, a.algorithm)
      (b.agents, b.algorithm))
    (fun a b c hab hbc => (lexLe_ok intLe_ok strLe_ok).trans (a.agents, a.algorithm)
      (b.agents, b.algorithm) (c.agents, c.algorithm) hab hbc)
    (fun a b hab hba => (lexLe_ok intLe_ok strLe_ok).antisymm (a.agents, a.algorithm)
      (b.agents, b.algorithm) hab hba)
    hperm ?_
  rw [List.map_map]
  have : ∀ q ∈ (d1.map (fun d => (d.algorithm, d.agents))).dedup,
      ((fun e : SummaryEntry => (e.agents, e.algorithm)) ∘ mkSummary d2) q =
        (q.2, q.1) := fun q _ => rfl
  rw [List.map_congr_left this]
  refine (List.nodup_dedup _).map ?_
  intro a b h
  simp only [Prod.ext_iff] at h ⊢
  exact ⟨h.2, h.1⟩

theorem summaryRows_perm {d1 d2 : List DataEntry} (dp : d1.Perm d2) :
    summaryRows d1 = summaryRows d2 := by
  unfold summaryRows agentsList
  rw [summaryEntries_perm dp]

theorem renderReport_perm {d1 d2 : List DataEntry} (dp : d1.Perm d2)
    (hnd : (d1.map fullKey).Nodup) : renderReport d1 = renderReport d2 := by
  unfold renderReport hasPmaxsum
  rw [dp.length_eq, zeroRows_perm dp hnd, (dp.filter _).length_eq,
      perm_any _ dp, compRows_perm dp hnd, winsSummary_perm dp hnd,
      summaryRows_perm dp]

/-- C8: the claim's determinism half is refuted when two distinct files
resolve to the same full configuration: `grouped[key][algo] = d`
overwrites, so the displayed cell comes from whichever file was
enumerated last — here the two discovery orders disagree on the
zero-round marker of the PDSA cell. -/
theorem claim_C8_counterexample :
    ([aC8fa, aC8fb] : List FileInput).Perm [aC8fb, aC8fa] ∧
    (analyze_directory [aC8fa, aC8fb]).toOption.map
        (fun d => (renderReport d).compTable.map
          (fun r => r.pdsa.map AlgoCell.marker)) ≠
      (analyze_directory [aC8fb, aC8fa]).toOption.map
        (fun d => (renderReport d).compTable.map
          (fun r => r.pdsa.map AlgoCell.marker)) :=
  ⟨List.Perm.swap aC8fb aC8fa [], by decide⟩

/-- C8 (amended): comparison-table rows are always emitted in sorted
order over the grouping key tuple `(network, timeout, agents)` (Python's
tuple order, `k3Le`); and the entire rendered report is identical across
two runs that enumerate the same files in different discovery orders
*provided* no two files resolve to the same full configuration
`(algorithm, network, timeout, agents)` — without that proviso the
last-enumerated file wins a group cell, see the counterexample. -/
theorem claim_C8 (files1 files2 : List FileInput) (d1 d2 : List DataEntry)
    (h1 : analyze_directory files1 = Except.ok d1)
    (h2 : analyze_directory files2 = Except.ok d2)
    (hp : files1.Perm files2) (hnd : (d1.map fullKey).Nodup) :
    ((compRows d1).map compRowKey = sortedGroupKeys d1 ∧
      (sortedGroupKeys d1).Pairwise (fun a b => k3Le a b = true)) ∧
    renderReport d1 = renderReport d2 := by
  have dp : d1.Perm d2 := analyze_directory_perm hp h1 h2
  refine ⟨⟨?_, ?_⟩, renderReport_perm dp hnd⟩
  · unfold compRows
    rw [List.map_map]
    have : ∀ k ∈ sortedGroupKeys d1, (compRowKey ∘ rowAt d1) k = k :=
      fun k _ => rfl
    rw [List.map_congr_left this]
    exact List.map_id' _
  · exact pairwise_isort k3Le k3Le_ok.total k3Le_ok.trans _

/-- Witness for `claim_C8`: two files with distinct configurations,
enumerated in both orders, render the same report. -/
theorem claim_C8_witness :
    ∃ d1 d2, analyze_directory [aC8wa, aC8wb] = Except.ok d1 ∧
      analyze_directory [aC8wb, aC8wa] = Except.ok d2 ∧
      renderReport d1 = renderReport d2 := by
  obtain ⟨d1, hd1⟩ : ∃ d, analyze_directory [aC8wa, aC8wb] = Except.ok d := ⟨_, rfl⟩
  obtain ⟨d2, hd2⟩ : ∃ d, analyze_directory [aC8wb, aC8wa] = Except.ok d := ⟨_, rfl⟩
  exact ⟨d1, d2, hd1, hd2,
    (claim_C8 [aC8wa, aC8wb] [aC8wb, aC8wa] d1 d2 hd1 hd2
      (List.Perm.swap aC8wb aC8wa [])
      (by rw [show d1 = ((List.map entryOf [aC8wa, aC8wb]).reduceOption)
            from analyze_directory_ok _ _ hd1]
          decide)).2⟩
